import Mathlib

/-!
Verification development for the QReminderPlugin repository.

The repository is a chat-bot reminder plugin written in Python.  Its core
pieces are modelled here as a shallow embedding:

* Python strings are modelled as `Str := List Char`.
* Python `datetime` instants handled by the time parser are modelled as
  `Instant := Int`, the number of microseconds since the Unix epoch.  Naive
  Python datetimes (single fixed timezone, no DST, no leap seconds) map
  linearly onto this timeline, so `datetime.replace(hour=..)`,
  `timedelta` addition and datetime comparison all become linear
  arithmetic on microsecond counts.
* Python `datetime` values stored inside reminder records (where the code
  performs calendar-field surgery such as `replace(month=..)` and ISO
  serialisation) are modelled as the field structure `PyDateTime`;
  CPython compares naive datetimes lexicographically by fields, which is
  what `PyDateTime.ltB` implements.
* Python dicts used as ordered key→value stores are modelled as
  association lists with insert-or-overwrite (`dinsert`) preserving
  insertion order, and deletion (`eraseK`) preserving order, exactly the
  observable semantics of CPython dicts.
* A Python function that can raise is modelled with `Except Unit`;
  a function that can return `None` is modelled with `Option`.
* The external `dateparser` library (sub-parser 4 of the pipeline) is not
  part of the repository; the pipeline is parameterised by it.
-/

set_option maxRecDepth 4000

abbrev Str := List Char

/-- Character is an ASCII decimal digit (the digits occurring in the
inputs of interest; mirrors `\d` of the regexes on such inputs). -/
def isDig (c : Char) : Bool := 48 ≤ c.toNat && c.toNat ≤ 57

/-- Python whitespace for `str.split()` (ASCII subset relevant here). -/
def isSpc (c : Char) : Bool :=
  c = ' ' || c = '\t' || c = '\n' || c = '\r'

/-- Numeric value of a digit character. -/
def digVal (c : Char) : Nat := c.toNat - 48

/-- Digit character of a value < 10. -/
def digChar (d : Nat) : Char :=
  match d with
  | 0 => '0' | 1 => '1' | 2 => '2' | 3 => '3' | 4 => '4'
  | 5 => '5' | 6 => '6' | 7 => '7' | 8 => '8' | _ => '9'

/-- Decimal rendering, fuel-indexed so that it reduces inside the
kernel; the fuel is irrelevant once it bounds the argument
(`natReprF_congr`). -/
def natReprF : Nat → Nat → Str
  | 0, n => [digChar n]
  | fuel + 1, n =>
    if n < 10 then [digChar n]
    else natReprF fuel (n / 10) ++ [digChar (n % 10)]

/-- Decimal rendering of a natural number, as Python `str(n)` /
f-string interpolation produces (see `natRepr_eq` for the recurrence). -/
def natRepr (n : Nat) : Str := natReprF n n

/-- Fold a digit string into a number (semantics of Python `int(...)`
on a string of decimal digits), with accumulator. -/
def readNatAux (acc : Nat) : Str → Nat
  | [] => acc
  | c :: rest => readNatAux (acc * 10 + digVal c) rest

def readNat (s : Str) : Nat := readNatAux 0 s

/-- Fixed-width zero-padded decimal rendering (`f"{n:0wd}"`),
most-significant digit first. -/
def padDigits : Nat → Nat → Str
  | 0, _ => []
  | w + 1, n => digChar (n / 10 ^ w) :: padDigits w (n % 10 ^ w)

/-- Read exactly `w` digit characters from the front of a string,
returning the value and the rest; fails if any is not a digit. -/
def readFixed : Nat → Nat → Str → Option (Nat × Str)
  | 0, acc, s => some (acc, s)
  | _ + 1, _, [] => none
  | w + 1, acc, c :: rest =>
      if isDig c then readFixed w (acc * 10 + digVal c) rest else none

/-- `isPrefixB pat s` : `pat` is a prefix of `s` (Boolean). -/
def isPrefixB : Str → Str → Bool
  | [], _ => true
  | _ :: _, [] => false
  | a :: as, b :: bs => a = b && isPrefixB as bs

/-- `containsSub pat s` : Python `pat in s` (substring test). -/
def containsSub (pat : Str) : Str → Bool
  | [] => isPrefixB pat []
  | c :: rest => isPrefixB pat (c :: rest) || containsSub pat rest

/-- Python `s.replace(pat, rep)`: left-to-right, non-overlapping.
(The repository never calls it with an empty pattern; an empty pattern
leaves the string unchanged here.) -/
def replaceAllF (pat rep : Str) : Nat → Str → Str
  | _, [] => []
  | 0, s => s
  | fuel + 1, c :: rest =>
    if pat ≠ [] ∧ isPrefixB pat (c :: rest) then
      rep ++ replaceAllF pat rep fuel ((c :: rest).drop pat.length)
    else
      c :: replaceAllF pat rep fuel rest

def replaceAll (pat rep s : Str) : Str := replaceAllF pat rep s.length s

/-- Python `str.split()` (split on whitespace runs, dropping empties). -/
def pyWordsF : Nat → Str → List Str
  | _, [] => []
  | 0, _ => []
  | fuel + 1, c :: rest =>
    if isSpc c then pyWordsF fuel rest
    else (c :: rest.takeWhile (fun d => !isSpc d))
         :: pyWordsF fuel (rest.dropWhile (fun d => !isSpc d))

def pyWords (s : Str) : List Str := pyWordsF s.length s

/-- `' '.join(words)`. -/
def joinSpace : List Str → Str
  | [] => []
  | [w] => w
  | w :: rest => w ++ ' ' :: joinSpace rest

/-- Sequentially apply a dict of replacements (Python iterates the dict
in insertion order). -/
def applyMap (m : List (Str × Str)) (s : Str) : Str :=
  m.foldl (fun acc p => replaceAll p.1 p.2 acc) s

/-- `re.findall(r'\d+', s)`: the maximal digit runs of `s`. -/
def digitRunsF : Nat → Str → List Str
  | _, [] => []
  | 0, _ => []
  | fuel + 1, c :: rest =>
    if isDig c then
      (c :: rest.takeWhile isDig) :: digitRunsF fuel (rest.dropWhile isDig)
    else digitRunsF fuel rest

def digitRuns (s : Str) : List Str := digitRunsF s.length s

/-! ## Calendar arithmetic shared by the parser and the record model -/

/-- Leap-year rule of the Gregorian calendar (Python `calendar.isleap`). -/
def isLeap (y : Nat) : Bool := y % 4 = 0 && (y % 100 ≠ 0 || y % 400 = 0)

/-- Days in a month (Python `calendar.monthrange` / `datetime` validation). -/
def daysInMonth (y m : Nat) : Nat :=
  match m with
  | 2 => if isLeap y then 29 else 28
  | 4 => 30 | 6 => 30 | 9 => 30 | 11 => 30
  | _ => 31

/-- Days since the Unix epoch of a civil date (Hinnant's algorithm with
floor division; executable model of the naive-datetime timeline). -/
def daysFromCivil (y mo dy : Nat) : Int :=
  let yi : Int := if mo ≤ 2 then (y : Int) - 1 else (y : Int)
  let era : Int := yi.fdiv 400
  let yoe : Int := yi - era * 400
  let mp : Int := if mo ≤ 2 then (mo : Int) + 9 else (mo : Int) - 3
  let doy : Int := (153 * mp + 2).fdiv 5 + (dy : Int) - 1
  let doe : Int := yoe * 365 + yoe.fdiv 4 - yoe.fdiv 100 + doy
  era * 146097 + doe - 719468

/-! ## Instants

`Instant := Int` counts microseconds since the Unix epoch.  A naive Python
datetime in a single fixed timezone maps linearly onto this axis, so
`timedelta` addition is integer addition and datetime comparison is
integer comparison. -/

def secU : Int := 1000000
def minuteU : Int := 60 * secU
def hourU : Int := 60 * minuteU
def dayU : Int := 24 * hourU
def weekU : Int := 7 * dayU

/-- Midnight of the day containing `t`
(`datetime.replace(hour=0, minute=0, second=0, microsecond=0)`). -/
def dayStart (t : Int) : Int := t.fdiv dayU * dayU

/-! ## TimeParser (src/src/reminder/utils/time_parser.py and the identical
copy inside main.py) -/

/-- `_preprocess_time_string` weekday synonym map, in dict order. -/
def weekday_map : List (Str × Str) :=
  [ (['周','一'], ['星','期','一']), (['周','二'], ['星','期','二'])
  , (['周','三'], ['星','期','三']), (['周','四'], ['星','期','四'])
  , (['周','五'], ['星','期','五']), (['周','六'], ['星','期','六'])
  , (['周','日'], ['星','期','日']), (['周','天'], ['星','期','日'])
  , (['礼','拜'], ['星','期'])
  , (['这','周'], ['本','周']), (['这','个','周'], ['本','周'])
  , (['这','星','期'], ['本','周']) ]

/-- `_preprocess_time_string` period-of-day map, in dict order. -/
def time_map : List (Str × Str) :=
  [ (['早','上'], ['上','午']), (['早','晨'], ['上','午'])
  , (['中','午'], ['1','2','点']), (['下','午'], ['下','午'])
  , (['傍','晚'], ['下','午','6','点']), (['晚','上'], ['晚','上'])
  , (['夜','里'], ['晚','上']), (['凌','晨'], ['凌','晨']) ]

/-- `_preprocess_time_string` Chinese-numeral map: `cn + '点' → num + '点'`,
in dict order. -/
def chinese_nums : List (Str × Str) :=
  [ (['零','点'], ['0','点']), (['一','点'], ['1','点'])
  , (['二','点'], ['2','点']), (['三','点'], ['3','点'])
  , (['四','点'], ['4','点']), (['五','点'], ['5','点'])
  , (['六','点'], ['6','点']), (['七','点'], ['7','点'])
  , (['八','点'], ['8','点']), (['九','点'], ['9','点'])
  , (['十','点'], ['1','0','点']), (['十','一','点'], ['1','1','点'])
  , (['十','二','点'], ['1','2','点']) ]

/-- `_preprocess_time_string`: collapse whitespace, then apply the three
replacement maps sequentially. -/
def preprocess (s : Str) : Str :=
  applyMap chinese_nums (applyMap time_map (applyMap weekday_map
    (joinSpace (pyWords s))))

/-- Python `str.strip()`. -/
def pyStrip (s : Str) : Str :=
  (((s.dropWhile isSpc).reverse).dropWhile isSpc).reverse

/-- The `[点时]` character class. -/
def isMark (c : Char) : Bool := c = '点' || c = '时'

/-- Match `(\d{1,2})[点时]` at the start of a string (greedy on the digit
group, as the regex engine behaves); returns the hour value and the rest
after the marker. -/
def hourCore : Str → Option (Nat × Str)
  | c1 :: c2 :: c3 :: rest =>
    if isDig c1 && isDig c2 && isMark c3 then
      some (digVal c1 * 10 + digVal c2, rest)
    else if isDig c1 && isMark c2 then some (digVal c1, c3 :: rest)
    else none
  | [c1, c2] => if isDig c1 && isMark c2 then some (digVal c1, []) else none
  | _ => none

/-- The optional minute group `(?:(\d{1,2})分?)?` right after the marker;
`0` when the group is absent (`int(m.group(2)) if m.group(2) else 0`). -/
def minOpt : Str → Nat
  | d1 :: d2 :: _ =>
    if isDig d1 && isDig d2 then digVal d1 * 10 + digVal d2
    else if isDig d1 then digVal d1 else 0
  | [d1] => if isDig d1 then digVal d1 else 0
  | [] => 0

/-- Match `(\d{1,2})[点时](?:(\d{1,2})分?)?` at the start of a string. -/
def hmAt (s : Str) : Option (Nat × Nat) :=
  match hourCore s with
  | none => none
  | some (h, rest) => some (h, minOpt rest)

/-- Match `(\d{1,2})[点时](\d{1,2})分?` (minute group required) at the
start of a string. -/
def hmReq (s : Str) : Option (Nat × Nat) :=
  match hourCore s with
  | none => none
  | some (h, rest) =>
    match rest with
    | d1 :: d2 :: _ =>
      if isDig d1 && isDig d2 then some (h, digVal d1 * 10 + digVal d2)
      else if isDig d1 then some (h, digVal d1) else none
    | [d1] => if isDig d1 then some (h, digVal d1) else none
    | [] => none

/-- `re.search`: try the anchored matcher at each position, left to
right. -/
def reSearch (m : Str → Option α) : Str → Option α
  | [] => m []
  | c :: rest =>
    match m (c :: rest) with
    | some r => some r
    | none => reSearch m rest

/-- The lazy `(.*?)` scan of the weekday regexes: extend the middle group
one character at a time (never across a newline) until
`(\d{1,2})[点时]` matches. -/
def lazyHourF : Nat → Str → Str → Option (Str × Nat)
  | 0, mid, s =>
    match hourCore s with
    | some (h, _) => some (mid, h)
    | none => none
  | fuel + 1, mid, s =>
    match hourCore s with
    | some (h, _) => some (mid, h)
    | none =>
      match s with
      | [] => none
      | c :: rest => if c = '\n' then none else lazyHourF fuel (mid ++ [c]) rest

def lazyHour (mid : Str) (s : Str) : Option (Str × Nat) :=
  lazyHourF s.length mid s

/-- Anchored matcher for `下周(.*?)(\d{1,2})[点时]`. -/
def nextWeekAt (s : Str) : Option (Str × Nat) :=
  if isPrefixB ['下','周'] s then lazyHour [] (s.drop 2) else none

/-- Anchored matcher for `(本周|这周)(.*?)(\d{1,2})[点时]`. -/
def thisWeekAt (s : Str) : Option (Str × Nat) :=
  if isPrefixB ['本','周'] s then lazyHour [] (s.drop 2)
  else if isPrefixB ['这','周'] s then lazyHour [] (s.drop 2)
  else none

/-- The weekday dictionary of `_parse_weekday_time`, in dict order. -/
def weekdays : List (Str × Nat) :=
  [ (['星','期','一'], 0), (['星','期','二'], 1), (['星','期','三'], 2)
  , (['星','期','四'], 3), (['星','期','五'], 4), (['星','期','六'], 5)
  , (['星','期','日'], 6), (['星','期','天'], 6) ]

/-- `_get_next_weekday`: day index (days since epoch) of the requested
weekday.  Day index 0 (1970-01-01) is a Thursday, i.e. 3 in Python's
Monday-is-0 convention. -/
def get_next_weekday (now : Int) (weekday : Nat) (weeksAhead : Nat) : Int :=
  let today : Int := now.fdiv dayU
  let tw : Int := (today + 3).fmod 7
  let da : Int := (weekday : Int) - tw
  let da : Int :=
    if weeksAhead > 0 then da + 7 * (weeksAhead : Int)
    else if da ≤ 0 then da + 7 else da
  today + da

/-- `_combine_date_time`: attach an hour (and the minute extracted by
`(\d{1,2})[点时](\d{1,2})分?` from the full string) to a day index;
`datetime.replace` raises on an out-of-range hour or minute. -/
def combine_date_time (day : Int) (hour : Nat) (s : Str) : Except Unit Int :=
  let minute : Nat :=
    match reSearch hmReq s with
    | some p => p.2
    | none => 0
  let hour : Nat :=
    if containsSub ['下','午'] s && decide (hour < 12) then hour + 12
    else if containsSub ['晚','上'] s && decide (hour < 12) then hour + 12
    else hour
  if hour ≤ 23 ∧ minute ≤ 59 then
    .ok (day * dayU + (hour : Int) * hourU + (minute : Int) * minuteU)
  else .error ()

/-- First weekday name occurring in the stripped middle group or in the
whole string (`if wd_name in weekday_str or wd_name in time_str`). -/
def findWd : List (Str × Nat) → Str → Str → Option Nat
  | [], _, _ => none
  | (name, wd) :: rest, mid, s =>
    if containsSub name mid || containsSub name s then some wd
    else findWd rest mid s

/-- The plain `星期X` loop of `_parse_weekday_time` (stage 3):
a weekday whose name occurs but with no `(\d{1,2})[点时]` in the string
lets the loop continue. -/
def wd_plain : List (Str × Nat) → Int → Str → Except Unit (Option Int)
  | [], _, _ => .ok none
  | (name, wd) :: rest, now, s =>
    if containsSub name s then
      match reSearch hourCore s with
      | some p => (combine_date_time (get_next_weekday now wd 0) p.1 s).map some
      | none => wd_plain rest now s
    else wd_plain rest now s

/-- Stage 2 of `_parse_weekday_time`: the `本周/这周` pattern, falling
through to the plain-weekday loop. -/
def parse_weekday_stage2 (now : Int) (s : Str) : Except Unit (Option Int) :=
  match reSearch thisWeekAt s with
  | some (mid, h) =>
    match findWd weekdays (pyStrip mid) s with
    | some wd => (combine_date_time (get_next_weekday now wd 0) h s).map some
    | none => wd_plain weekdays now s
  | none => wd_plain weekdays now s

/-- `_parse_weekday_time`. -/
def parse_weekday_time (now : Int) (s : Str) : Except Unit (Option Int) :=
  match reSearch nextWeekAt s with
  | some (mid, h) =>
    match findWd weekdays (pyStrip mid) s with
    | some wd => (combine_date_time (get_next_weekday now wd 1) h s).map some
    | none => parse_weekday_stage2 now s
  | none => parse_weekday_stage2 now s

/-- The relative-day dictionary of `_parse_relative_days`, in dict
order. -/
def relDays : List (Str × Nat) :=
  [ (['今','天'], 0), (['明','天'], 1), (['后','天'], 2)
  , (['大','后','天'], 3), (['明','日'], 1), (['后','日'], 2) ]

/-- The loop body of `_parse_relative_days`: a matching day word with
neither an hour pattern nor a period word lets the loop continue. -/
def rel_days_loop : List (Str × Nat) → Int → Str → Except Unit (Option Int)
  | [], _, _ => .ok none
  | (name, off) :: rest, now, s =>
    if containsSub name s then
      let target : Int := now + (off : Int) * dayU
      match reSearch hourCore s with
      | some p => (combine_date_time (target.fdiv dayU) p.1 s).map some
      | none =>
        if containsSub ['上','午'] s then .ok (some (dayStart target + 9 * hourU))
        else if containsSub ['下','午'] s then .ok (some (dayStart target + 15 * hourU))
        else if containsSub ['晚','上'] s then .ok (some (dayStart target + 20 * hourU))
        else rel_days_loop rest now s
    else rel_days_loop rest now s

/-- `_parse_relative_days`. -/
def parse_relative_days (now : Int) (s : Str) : Except Unit (Option Int) :=
  rel_days_loop relDays now s

/-- `_parse_specific_time`: `(\d{1,2})[点时](?:(\d{1,2})分?)?` anywhere in
the string; `now.replace(hour=h, minute=m, second=0, microsecond=0)`
raises when the adjusted hour or minute is out of range. -/
def parse_specific_time (now : Int) (s : Str) : Except Unit (Option Int) :=
  match reSearch hmAt s with
  | none => .ok none
  | some (h, m) =>
    let h : Nat :=
      if containsSub ['下','午'] s && decide (h < 12) then h + 12
      else if containsSub ['晚','上'] s && decide (h < 12) then h + 12
      else h
    if h ≤ 23 ∧ m ≤ 59 then
      let target : Int := dayStart now + (h : Int) * hourU + (m : Int) * minuteU
      .ok (some (if target ≤ now then target + dayU else target))
    else .error ()

/-! ### `_parse_time_manual`: strptime mini-engine for the nine formats -/

/-- One token of a `strptime` format string. -/
inductive FTok
  | lit (c : Char)
  | y4
  | mo
  | dy
  | hr
  | mi
  | sc
deriving DecidableEq

/-- Fields produced by `strptime`, with Python's defaults
(year 1900, January 1, midnight). -/
structure SField where
  y : Nat := 1900
  mo : Nat := 1
  dy : Nat := 1
  hr : Nat := 0
  mi : Nat := 0
  sc : Nat := 0
deriving DecidableEq, Repr

/-- `%m` of `strptime`: the TimeRE pattern `(1[0-2]|0[1-9]|[1-9])`. -/
def readMo : Str → Option (Nat × Str)
  | c1 :: c2 :: rest =>
    if c1 = '1' && isDig c2 && digVal c2 ≤ 2 then some (10 + digVal c2, rest)
    else if c1 = '0' && isDig c2 && 1 ≤ digVal c2 then some (digVal c2, rest)
    else if isDig c1 && 1 ≤ digVal c1 then some (digVal c1, c2 :: rest)
    else none
  | [c1] => if isDig c1 && 1 ≤ digVal c1 then some (digVal c1, []) else none
  | [] => none

/-- `%d` of `strptime`: the TimeRE pattern `(3[01]|[12]\d|0[1-9]|[1-9])`. -/
def readDy : Str → Option (Nat × Str)
  | c1 :: c2 :: rest =>
    if c1 = '3' && (c2 = '0' || c2 = '1') then some (30 + digVal c2, rest)
    else if (c1 = '1' || c1 = '2') && isDig c2 then
      some (digVal c1 * 10 + digVal c2, rest)
    else if c1 = '0' && isDig c2 && 1 ≤ digVal c2 then some (digVal c2, rest)
    else if isDig c1 && 1 ≤ digVal c1 then some (digVal c1, c2 :: rest)
    else none
  | [c1] => if isDig c1 && 1 ≤ digVal c1 then some (digVal c1, []) else none
  | [] => none

/-- `%H` of `strptime`: the TimeRE pattern `(2[0-3]|[0-1]\d|\d)`. -/
def readHr : Str → Option (Nat × Str)
  | c1 :: c2 :: rest =>
    if c1 = '2' && isDig c2 && digVal c2 ≤ 3 then some (20 + digVal c2, rest)
    else if (c1 = '0' || c1 = '1') && isDig c2 then
      some (digVal c1 * 10 + digVal c2, rest)
    else if isDig c1 then some (digVal c1, c2 :: rest)
    else none
  | [c1] => if isDig c1 then some (digVal c1, []) else none
  | [] => none

/-- `%M` of `strptime`: the TimeRE pattern `([0-5]\d|\d)`. -/
def readMi : Str → Option (Nat × Str)
  | c1 :: c2 :: rest =>
    if isDig c1 && digVal c1 ≤ 5 && isDig c2 then
      some (digVal c1 * 10 + digVal c2, rest)
    else if isDig c1 then some (digVal c1, c2 :: rest)
    else none
  | [c1] => if isDig c1 then some (digVal c1, []) else none
  | [] => none

/-- `%S` of `strptime`: the TimeRE pattern `(6[0-1]|[0-5]\d|\d)`. -/
def readSc : Str → Option (Nat × Str)
  | c1 :: c2 :: rest =>
    if c1 = '6' && (c2 = '0' || c2 = '1') then some (60 + digVal c2, rest)
    else if isDig c1 && digVal c1 ≤ 5 && isDig c2 then
      some (digVal c1 * 10 + digVal c2, rest)
    else if isDig c1 then some (digVal c1, c2 :: rest)
    else none
  | [c1] => if isDig c1 then some (digVal c1, []) else none
  | [] => none

/-- Run a format against a string; the whole string must be consumed
(`strptime` raises on unconverted data). -/
def runFmt : List FTok → Str → SField → Option SField
  | [], [], f => some f
  | [], _ :: _, _ => none
  | FTok.lit c :: ts, s, f =>
    match s with
    | c' :: rest => if c' = c then runFmt ts rest f else none
    | [] => none
  | FTok.y4 :: ts, s, f =>
    (readFixed 4 0 s).bind fun p => runFmt ts p.2 { f with y := p.1 }
  | FTok.mo :: ts, s, f =>
    (readMo s).bind fun p => runFmt ts p.2 { f with mo := p.1 }
  | FTok.dy :: ts, s, f =>
    (readDy s).bind fun p => runFmt ts p.2 { f with dy := p.1 }
  | FTok.hr :: ts, s, f =>
    (readHr s).bind fun p => runFmt ts p.2 { f with hr := p.1 }
  | FTok.mi :: ts, s, f =>
    (readMi s).bind fun p => runFmt ts p.2 { f with mi := p.1 }
  | FTok.sc :: ts, s, f =>
    (readSc s).bind fun p => runFmt ts p.2 { f with sc := p.1 }

/-- The nine formats of `_parse_time_manual`, each with the
`"%Y" in fmt or "%m" in fmt` flag and the `"%M" in fmt` flag. -/
def manualFmts : List (List FTok × Bool × Bool) :=
  [ ([FTok.y4, FTok.lit '-', FTok.mo, FTok.lit '-', FTok.dy, FTok.lit ' ',
      FTok.hr, FTok.lit ':', FTok.mi, FTok.lit ':', FTok.sc], true, true)
  , ([FTok.y4, FTok.lit '-', FTok.mo, FTok.lit '-', FTok.dy, FTok.lit ' ',
      FTok.hr, FTok.lit ':', FTok.mi], true, true)
  , ([FTok.y4, FTok.lit '/', FTok.mo, FTok.lit '/', FTok.dy, FTok.lit ' ',
      FTok.hr, FTok.lit ':', FTok.mi], true, true)
  , ([FTok.mo, FTok.lit '-', FTok.dy, FTok.lit ' ',
      FTok.hr, FTok.lit ':', FTok.mi], true, true)
  , ([FTok.mo, FTok.lit '月', FTok.dy, FTok.lit '日', FTok.lit ' ',
      FTok.hr, FTok.lit '点', FTok.mi, FTok.lit '分'], true, true)
  , ([FTok.mo, FTok.lit '月', FTok.dy, FTok.lit '日', FTok.lit ' ',
      FTok.hr, FTok.lit '点'], true, false)
  , ([FTok.hr, FTok.lit ':', FTok.mi], false, true)
  , ([FTok.hr, FTok.lit '点', FTok.mi, FTok.lit '分'], false, true)
  , ([FTok.hr, FTok.lit '点'], false, false) ]

/-- Instant of the civil datetime carried by `strptime` fields. -/
def civilInstant (f : SField) : Int :=
  daysFromCivil f.y f.mo f.dy * dayU + (f.hr : Int) * hourU
    + (f.mi : Int) * minuteU + (f.sc : Int) * secU

/-- One iteration of the format loop of `_parse_time_manual`:
a date-carrying format returns the parsed datetime directly (the
`datetime` constructor validates the fields; a failure is caught by the
loop and tries the next format); a time-only format lands on today,
rolled to tomorrow when already past. -/
def tryFmt (now : Int) (s : Str) : List FTok × Bool × Bool → Option Int
  | (toks, hasDate, hasMin) =>
    match runFmt toks s {} with
    | none => none
    | some f =>
      if hasDate then
        if 1 ≤ f.y ∧ f.dy ≤ daysInMonth f.y f.mo ∧ f.sc ≤ 59 then
          some (civilInstant f)
        else none
      else
        let target : Int :=
          dayStart now + (f.hr : Int) * hourU
            + (if hasMin then (f.mi : Int) else 0) * minuteU
        some (if target ≤ now then target + dayU else target)

/-- The format loop: first format that parses wins. -/
def fmtLoop (now : Int) (s : Str) : List (List FTok × Bool × Bool) → Option Int
  | [] => none
  | fd :: rest =>
    match tryFmt now s fd with
    | some r => some r
    | none => fmtLoop now s rest

/-- `_parse_time_manual`: the `"<N> <unit>后"` relative branch, then the
fixed format list. -/
def parse_time_manual (now : Int) (s : Str) : Except Unit (Option Int) :=
  if containsSub ['后'] s then
    match digitRuns s with
    | n0 :: _ =>
      let v := readNat n0
      if containsSub ['分','钟'] s then .ok (some (now + (v : Int) * minuteU))
      else if containsSub ['小','时'] s then .ok (some (now + (v : Int) * hourU))
      else if containsSub ['天'] s then .ok (some (now + (v : Int) * dayU))
      else if containsSub ['周'] s then .ok (some (now + (v : Int) * weekU))
      else if containsSub ['月'] s then
        .ok (some (now + (v : Int) * 30 * dayU))
      else .ok (fmtLoop now s manualFmts)
    | [] => .ok (fmtLoop now s manualFmts)
  else .ok (fmtLoop now s manualFmts)

/-! ### `parse_time`: the five-sub-parser pipeline -/

/-- The ordered sub-parser list of `parse_time`; the fourth entry is the
external `dateparser` library, taken as a parameter. -/
def subParsers (dp : Str → Except Unit (Option Int)) (now : Int) :
    List (Str → Except Unit (Option Int)) :=
  [ parse_weekday_time now, parse_relative_days now, parse_specific_time now
  , dp, parse_time_manual now ]

/-- The acceptance loop `for parser in parsers: ...` of `parse_time`:
the first sub-parser returning a strictly future instant wins; a raised
exception aborts the whole call (it propagates to the outer
`try`/`except`). -/
def runParsers : List (Str → Except Unit (Option Int)) → Int → Str →
    Except Unit (Option Int)
  | [], _, _ => .ok none
  | p :: rest, now, s =>
    match p s with
    | .error e => .error e
    | .ok (some r) => if now < r then .ok (some r) else runParsers rest now s
    | .ok none => runParsers rest now s

/-- `parse_time`: run the pipeline on the preprocessed string, retry on
the raw string, return `None` on failure; the outer `try`/`except`
turns any raised exception into `None` (skipping everything after the
raise point, including the raw-string retry). -/
def parse_time (dp : Str → Except Unit (Option Int)) (now : Int)
    (s : Str) : Option Int :=
  match runParsers (subParsers dp now) now (preprocess s) with
  | .error _ => none
  | .ok (some r) => some r
  | .ok none =>
    match runParsers (subParsers dp now) now s with
    | .error _ => none
    | .ok r => r

/-! ## PyDateTime: the calendar-field view of a naive Python datetime,
used by the reminder records (src/src/reminder/models/reminder.py) -/

structure PyDateTime where
  year : Nat
  month : Nat
  day : Nat
  hour : Nat
  minute : Nat
  second : Nat
  micro : Nat
deriving DecidableEq, Repr

/-- The field ranges every constructed Python `datetime` satisfies
(`MINYEAR = 1`, `MAXYEAR = 9999`, etc.). -/
def PyDateTime.validB (d : PyDateTime) : Bool :=
  1 ≤ d.year && d.year ≤ 9999 && 1 ≤ d.month && d.month ≤ 12 &&
  1 ≤ d.day && d.day ≤ daysInMonth d.year d.month &&
  d.hour ≤ 23 && d.minute ≤ 59 && d.second ≤ 59 && d.micro ≤ 999999

abbrev PyDateTime.Valid (d : PyDateTime) : Prop := d.validB = true

/-- Decidable equality for `Except`, used to evaluate the raising
computations on concrete inputs. -/
instance [DecidableEq ε] [DecidableEq α] : DecidableEq (Except ε α) := by
  intro a b
  cases a <;> cases b
  case error.error e f =>
    exact if h : e = f then .isTrue (by rw [h])
      else .isFalse (fun c => by cases c; exact h rfl)
  case error.ok e f => exact .isFalse (fun c => by cases c)
  case ok.error e f => exact .isFalse (fun c => by cases c)
  case ok.ok e f =>
    exact if h : e = f then .isTrue (by rw [h])
      else .isFalse (fun c => by cases c; exact h rfl)

/-- CPython comparison of naive datetimes: lexicographic on the field
tuple. -/
def PyDateTime.ltB (a b : PyDateTime) : Bool :=
  if a.year ≠ b.year then decide (a.year < b.year)
  else if a.month ≠ b.month then decide (a.month < b.month)
  else if a.day ≠ b.day then decide (a.day < b.day)
  else if a.hour ≠ b.hour then decide (a.hour < b.hour)
  else if a.minute ≠ b.minute then decide (a.minute < b.minute)
  else if a.second ≠ b.second then decide (a.second < b.second)
  else decide (a.micro < b.micro)

/-- `datetime.replace(year=y, month=m)`: the constructor re-validates the
resulting date and raises `ValueError` when the day does not exist in the
target month. -/
def pyReplaceYM (dt : PyDateTime) (y m : Nat) : Except Unit PyDateTime :=
  if 1 ≤ y ∧ y ≤ 9999 ∧ 1 ≤ m ∧ m ≤ 12 ∧ 1 ≤ dt.day ∧
      dt.day ≤ daysInMonth y m then
    .ok { dt with year := y, month := m }
  else .error ()

/-- The monthly-recurrence computation of `_handle_repeat_reminder`:
December rolls to January of the next year, otherwise `month + 1`;
`replace` raises on day-of-month overflow (no clamping). -/
def next_monthly (dt : PyDateTime) : Except Unit PyDateTime :=
  if dt.month = 12 then pyReplaceYM dt (dt.year + 1) 1
  else pyReplaceYM dt dt.year (dt.month + 1)

/-- `+ timedelta(days=1)` on the calendar-field view (naive datetimes:
exactly the next calendar day, time of day unchanged). -/
def addOneDay (dt : PyDateTime) : PyDateTime :=
  if dt.day < daysInMonth dt.year dt.month then { dt with day := dt.day + 1 }
  else if dt.month < 12 then { dt with month := dt.month + 1, day := 1 }
  else { dt with year := dt.year + 1, month := 1, day := 1 }

/-- `+ timedelta(days=n)`. -/
def addDays (dt : PyDateTime) : Nat → PyDateTime
  | 0 => dt
  | n + 1 => addDays (addOneDay dt) n

/-- `datetime.isoformat()`: `YYYY-MM-DDTHH:MM:SS`, plus `.ffffff` when
the microsecond field is nonzero. -/
def isoformat (d : PyDateTime) : Str :=
  padDigits 4 d.year ++ '-' :: padDigits 2 d.month ++ '-' :: padDigits 2 d.day
  ++ 'T' :: padDigits 2 d.hour ++ ':' :: padDigits 2 d.minute
  ++ ':' :: padDigits 2 d.second
  ++ (if d.micro = 0 then [] else '.' :: padDigits 6 d.micro)

/-- Expect one literal character. -/
def expectC (c : Char) : Str → Option Str
  | c' :: rest => if c' = c then some rest else none
  | [] => none

/-- Parse the canonical `isoformat` output shape back into fields. -/
def parseIso (s : Str) : Option PyDateTime :=
  (readFixed 4 0 s).bind fun (y, s) =>
  (expectC '-' s).bind fun s =>
  (readFixed 2 0 s).bind fun (mo, s) =>
  (expectC '-' s).bind fun s =>
  (readFixed 2 0 s).bind fun (dy, s) =>
  (expectC 'T' s).bind fun s =>
  (readFixed 2 0 s).bind fun (h, s) =>
  (expectC ':' s).bind fun s =>
  (readFixed 2 0 s).bind fun (mi, s) =>
  (expectC ':' s).bind fun s =>
  (readFixed 2 0 s).bind fun (sec, s) =>
  match s with
  | [] => some ⟨y, mo, dy, h, mi, sec, 0⟩
  | '.' :: rest =>
    (readFixed 6 0 rest).bind fun (us, s2) =>
      match s2 with
      | [] => some ⟨y, mo, dy, h, mi, sec, us⟩
      | _ => none
  | _ => none

/-- `datetime.fromisoformat` on the canonical `isoformat` shape: parse
the fields, then the `datetime` constructor validates them (raising
`ValueError` otherwise). -/
def fromisoformat (s : Str) : Except Unit PyDateTime :=
  match parseIso s with
  | none => .error ()
  | some d => if d.validB then .ok d else .error ()

/-! ## The Reminder model and its dict serialisation
(src/src/reminder/models/reminder.py) -/

structure Reminder where
  id : Str
  sender_id : Str
  target_id : Str
  target_type : Str
  content : Str
  target_time : PyDateTime
  repeat_type : Str
  active : Bool
  created_at : PyDateTime
deriving DecidableEq, Repr

/-- The JSON dict written for one reminder.  `repeat_type` and `active`
are read back with `.get(..., default)`, hence optional. -/
structure RDict where
  id : Str
  sender_id : Str
  target_id : Str
  target_type : Str
  content : Str
  target_time : Str
  repeat_type : Option Str
  active : Option Bool
  created_at : Str
deriving DecidableEq, Repr

/-- `Reminder.to_dict`. -/
def to_dict (r : Reminder) : RDict :=
  { id := r.id, sender_id := r.sender_id, target_id := r.target_id
  , target_type := r.target_type, content := r.content
  , target_time := isoformat r.target_time
  , repeat_type := some r.repeat_type, active := some r.active
  , created_at := isoformat r.created_at }

/-- `Reminder.from_dict`; a `fromisoformat` failure raises out of it. -/
def from_dict (d : RDict) : Except Unit Reminder :=
  match fromisoformat d.target_time, fromisoformat d.created_at with
  | .ok tt, .ok ca =>
    .ok { id := d.id, sender_id := d.sender_id, target_id := d.target_id
        , target_type := d.target_type, content := d.content
        , target_time := tt
        , repeat_type := d.repeat_type.getD ['不','重','复']
        , active := d.active.getD true
        , created_at := ca }
  | _, _ => .error ()

/-! ## Ordered dict operations (CPython dict observable semantics) -/

/-- `d[k] = v`: overwrite in place, or append a new key at the end. -/
def dinsert (k : Str) (v : α) : List (Str × α) → List (Str × α)
  | [] => [(k, v)]
  | (k', v') :: rest =>
    if k' = k then (k, v) :: rest else (k', v') :: dinsert k v rest

/-- `d.get(k)` / `k in d`. -/
def lookupK (k : Str) : List (Str × α) → Option α
  | [] => none
  | (k', v) :: rest => if k' = k then some v else lookupK k rest

/-- `del d[k]` (no-op when absent, matching the guarded deletes of the
source). -/
def eraseK (k : Str) (l : List (Str × α)) : List (Str × α) :=
  l.filter (fun p => !decide (p.1 = k))

/-- `running_tasks[k] = task` on the task-key table. -/
def addTask (k : Str) (l : List Str) : List Str :=
  if k ∈ l then l else l ++ [k]

/-- `del running_tasks[k]` (guarded in the source; no-op when absent). -/
def eraseTask (k : Str) (l : List Str) : List Str :=
  l.filter (fun x => !decide (x = k))

/-! ## ReminderManager (src/src/reminder/core/reminder_manager.py) -/

structure MState where
  reminders : List (Str × Reminder)
  tasks : List Str
deriving DecidableEq, Repr

/-- `_schedule_reminder`: arm a task only when
`(target_time - now).total_seconds() > 0`. -/
def schedule_reminder (now : PyDateTime) (r : Reminder) (st : MState) : MState :=
  if PyDateTime.ltB now r.target_time then
    { st with tasks := addTask r.id st.tasks }
  else st

/-- Reminder id generation:
`f"{sender_id}_{int(datetime.now().timestamp())}"`;
`ts` is the whole-second clock reading at creation. -/
def mkRid (sender : Str) (ts : Nat) : Str := sender ++ '_' :: natRepr ts

/-- The store-write part of `create_reminder`, after a successful parse
producing the (here opaque) future `target_time`: build the record,
write it through the store, schedule it. -/
def create_reminder (now : PyDateTime) (sender target_id target_type content : Str)
    (ts : Nat) (target_time : PyDateTime) (repeat_type : Str) (st : MState) :
    MState :=
  let rid := mkRid sender ts
  let r : Reminder :=
    { id := rid, sender_id := sender, target_id := target_id
    , target_type := target_type, content := content
    , target_time := target_time, repeat_type := repeat_type
    , active := true, created_at := now }
  schedule_reminder now r { st with reminders := dinsert rid r st.reminders }

/-- A sequence of successful creates by one owner: each entry is the
whole-second timestamp read at that create plus the content. -/
def create_many (now : PyDateTime) (sender : Str) (tt : PyDateTime) :
    List (Nat × Str) → MState → MState
  | [], st => st
  | (ts, c) :: rest, st =>
    create_many now sender tt rest
      (create_reminder now sender sender ['p'] c ts tt ['不','重','复'] st)

/-- `toggle_reminder`: returns `True` only when the flag actually
changed; an unknown id and a no-op both return `False`. -/
def toggle_reminder (now : PyDateTime) (st : MState) (rid : Str)
    (active : Bool) : Bool × MState :=
  match lookupK rid st.reminders with
  | none => (false, st)
  | some r =>
    if r.active ≠ active then
      let r' := { r with active := active }
      let st' : MState := { st with reminders := dinsert rid r' st.reminders }
      if active then (true, schedule_reminder now r' st')
      else (true, { st' with tasks := eraseTask rid st'.tasks })
    else (false, st)

/-- The `next_time` computation of `_handle_repeat_reminder`: daily and
weekly are plain timedelta additions, monthly is the raising
`replace`-based computation, any other repeat type yields no next
time. -/
def next_time (repeat_type : Str) (ct : PyDateTime) :
    Except Unit (Option PyDateTime) :=
  if repeat_type = ['每','天'] then .ok (some (addDays ct 1))
  else if repeat_type = ['每','周'] then .ok (some (addDays ct 7))
  else if repeat_type = ['每','月'] then (next_monthly ct).map some
  else .ok none

/-- `_handle_repeat_reminder` (manager version, fields are datetimes):
one-shot reminders are deleted; recurring ones advance `target_time` and
re-schedule; an exception from the monthly `replace` propagates to
`_reminder_task`'s `except`, leaving the state untouched. -/
def handle_repeat_mgr (now : PyDateTime) (st : MState) (r : Reminder) : MState :=
  if r.repeat_type = ['不','重','复'] then
    { reminders := eraseK r.id st.reminders, tasks := eraseTask r.id st.tasks }
  else
    match next_time r.repeat_type r.target_time with
    | .error _ => st
    | .ok none => st
    | .ok (some nt) =>
      let r' := { r with target_time := nt }
      schedule_reminder now r' { st with reminders := dinsert r.id r' st.reminders }

/-- `_save_reminders` (manager): serialise every record. -/
def save_reminders (l : List (Str × Reminder)) : List (Str × RDict) :=
  l.map (fun p => (p.1, to_dict p.2))

/-- The comprehension inside `_load_reminders`; the first record that
fails to deserialise raises. -/
def load_aux : List (Str × RDict) → Except Unit (List (Str × Reminder))
  | [] => .ok []
  | (k, d) :: rest =>
    match from_dict d, load_aux rest with
    | .ok r, .ok t => .ok ((k, r) :: t)
    | _, _ => .error ()

/-- `_load_reminders`: on any exception the store is reset to `{}`. -/
def load_reminders (l : List (Str × RDict)) : List (Str × Reminder) :=
  match load_aux l with
  | .ok r => r
  | .error _ => []

/-! ## The standalone plugin in main.py (records kept as JSON-style
dicts whose `target_time`/`created_at` are ISO strings) -/

structure Rec where
  sender_id : Str
  target_id : Str
  target_type : Str
  content : Str
  target_time : Str
  repeat_type : Str
  active : Bool
  created_at : Str
deriving DecidableEq, Repr

structure PState where
  reminders : List (Str × Rec)
  tasks : List Str
deriving DecidableEq, Repr

/-- `_schedule_reminder` (main.py): parse the stored ISO time; its own
`try`/`except` swallows a parse failure; arm a task only for a strictly
future time. -/
def schedule_main (now : PyDateTime) (rid : Str) (r : Rec) (st : PState) :
    PState :=
  match fromisoformat r.target_time with
  | .error _ => st
  | .ok tt =>
    if PyDateTime.ltB now tt then { st with tasks := addTask rid st.tasks }
    else st

/-- `_handle_repeat_reminder` (main.py version). -/
def handle_repeat_main (now : PyDateTime) (st : PState) (rid : Str)
    (r : Rec) : PState :=
  if r.repeat_type = ['不','重','复'] then
    { reminders := eraseK rid st.reminders, tasks := eraseTask rid st.tasks }
  else
    match fromisoformat r.target_time with
    | .error _ => st
    | .ok ct =>
      match next_time r.repeat_type ct with
      | .error _ => st
      | .ok none => st
      | .ok (some nt) =>
        let r' := { r with target_time := isoformat nt }
        schedule_main now rid r' { st with reminders := dinsert rid r' st.reminders }

/-- Number of delivery attempts the retry loop of `_reminder_task`
performs, given the success/failure outcome of each attempt
(at most 3; it stops after the first success). -/
def attemptsUsed (outcomes : List Bool) : Nat :=
  match (outcomes.take 3).findIdx? (fun b => b) with
  | some i => i + 1
  | none => 3

/-- `_reminder_task` (main.py) after the sleep: re-check existence and
the active flag; deliver with the bounded retry loop (whose outcome
never blocks what follows); then run repeat handling.  Returns the new
state and the number of delivery attempts performed. -/
def reminder_task (now : PyDateTime) (st : PState) (rid : Str)
    (outcomes : List Bool) : PState × Nat :=
  match lookupK rid st.reminders with
  | none => (st, 0)
  | some r =>
    if r.active then (handle_repeat_main now st rid r, attemptsUsed outcomes)
    else (st, 0)

/-- `_handle_list_reminders` (main.py): the caller's reminders that are
active, in store order. -/
def user_active_reminders (st : PState) (sender : Str) : List Rec :=
  (st.reminders.map Prod.snd).filter
    (fun r => decide (r.sender_id = sender) && r.active)

/-- The selection used by `_handle_delete_reminder` and
`_toggle_reminder` (main.py): the caller's reminders with **no** active
filter, in store order. -/
def user_all_reminders (st : PState) (sender : Str) : List (Str × Rec) :=
  st.reminders.filter (fun p => decide (p.2.sender_id = sender))

/-- `_handle_delete_reminder` (main.py): `index = int(n) - 1` into the
unfiltered per-sender list; cancel the task and delete the record.
Returns the removed entry, if any. -/
def handle_delete_reminder (st : PState) (sender : Str) (n : Int) :
    PState × Option (Str × Rec) :=
  let idx : Int := n - 1
  let lst := user_all_reminders st sender
  if 0 ≤ idx ∧ idx < (lst.length : Int) then
    match lst[idx.toNat]? with
    | some p =>
      ({ reminders := eraseK p.1 st.reminders
       , tasks := eraseTask p.1 st.tasks }, some p)
    | none => (st, none)
  else (st, none)

/-- The user-visible outcome of a pause/resume command. -/
inductive ToggleReply
  | resumed
  | paused
  | alreadyOn
  | alreadyOff
  | notFound
  | failed
deriving DecidableEq, Repr

/-- `_toggle_reminder` (main.py): index into the unfiltered per-sender
list; an already-in-state reminder gets its own distinct reply and no
state change. -/
def toggle_main (now : PyDateTime) (st : PState) (sender : Str) (n : Int)
    (active : Bool) : ToggleReply × PState :=
  let idx : Int := n - 1
  let lst := user_all_reminders st sender
  if 0 ≤ idx ∧ idx < (lst.length : Int) then
    match lst[idx.toNat]? with
    | none => (ToggleReply.notFound, st)
    | some (rid, r) =>
      if active ∧ ¬ r.active then
        let r' := { r with active := true }
        let st' : PState := { st with reminders := dinsert rid r' st.reminders }
        (ToggleReply.resumed, schedule_main now rid r' st')
      else if ¬ active ∧ r.active then
        let r' := { r with active := false }
        (ToggleReply.paused,
         { reminders := dinsert rid r' st.reminders
         , tasks := eraseTask rid st.tasks })
      else
        (if active then ToggleReply.alreadyOn else ToggleReply.alreadyOff, st)
  else (ToggleReply.notFound, st)

/-- `_toggle_reminder` of the MessageHandler
(src/src/reminder/handlers/message_handler.py): it calls the manager's
`toggle_reminder` and maps a `False` return — a no-op **or** an unknown
id alike — to the failure reply. -/
def toggle_msg_handler (now : PyDateTime) (st : MState) (sender : Str)
    (n : Int) (active : Bool) : ToggleReply × MState :=
  let idx : Int := n - 1
  let lst := (st.reminders.map Prod.snd).filter
    (fun r => decide (r.sender_id = sender))
  if 0 ≤ idx ∧ idx < (lst.length : Int) then
    match lst[idx.toNat]? with
    | none => (ToggleReply.notFound, st)
    | some r =>
      let res := toggle_reminder now st r.id active
      if res.1 then
        ((if active then ToggleReply.resumed else ToggleReply.paused), res.2)
      else (ToggleReply.failed, res.2)
  else (ToggleReply.notFound, st)

/-! ## Auxiliary definitions used by the statements below -/

/-- Keys of an ordered dict. -/
def keysOf (l : List (Str × α)) : List Str := l.map Prod.fst

/-- A dateparser stand-in that recognises nothing (used to instantiate
the external-library parameter in concrete evaluations). -/
def dpNone : Str → Except Unit (Option Int) := fun _ => .ok none

/-- The external dateparser does not intercept input `s` with a future
instant different from `t`: it fails, or returns `t` itself, or returns
a non-future instant (and in particular does not raise). -/
def dpBenign (dp : Str → Except Unit (Option Int)) (now : Int) (s : Str)
    (t : Int) : Prop :=
  dp s = .ok none ∨ dp s = .ok (some t) ∨
    ∃ v, dp s = .ok (some v) ∧ v ≤ now

/-- The input `"N分钟后"`. -/
def minutesStr (n : Nat) : Str := natRepr n ++ ['分','钟','后']

/-- The input `"N小时后"`. -/
def hoursStr (n : Nat) : Str := natRepr n ++ ['小','时','后']

/-- The input `"N天后"`. -/
def daysStr (n : Nat) : Str := natRepr n ++ ['天','后']

/-- The input `"N周后"`. -/
def weeksStr (n : Nat) : Str := natRepr n ++ ['周','后']

/-- The input `"N月后"`. -/
def monthsStr (n : Nat) : Str := natRepr n ++ ['月','后']

/-! ## Concrete fixtures used by witnesses and counterexamples -/

def oneShot : Str := ['不','重','复']

def nowP : PyDateTime := ⟨2025, 1, 1, 12, 0, 0, 0⟩

def dtPast : PyDateTime := ⟨2025, 1, 1, 10, 0, 0, 0⟩

def dtFut : PyDateTime := ⟨2025, 6, 1, 10, 0, 0, 0⟩

/-- A one-shot active record of user `u` (main.py dict form). -/
def recOne : Rec :=
  ⟨['u'], ['u'], ['p'], ['m'], ['x'], oneShot, true, ['x']⟩

def pstOne : PState := ⟨[(['r','1'], recOne)], [['r','1']]⟩

/-- A paused record (content `A`) of user `u`. -/
def recPaused : Rec :=
  ⟨['u'], ['u'], ['p'], ['A'], ['x'], oneShot, false, ['x']⟩

/-- An active record (content `B`) of user `u`. -/
def recActiveB : Rec :=
  ⟨['u'], ['u'], ['p'], ['B'], ['x'], oneShot, true, ['x']⟩

/-- Store with a paused record inserted before an active one. -/
def pstTwo : PState := ⟨[(['a'], recPaused), (['b'], recActiveB)], []⟩

/-- Store with two active records of user `u`. -/
def pstAct2 : PState :=
  ⟨[(['a'], recActiveB), (['b'], { recActiveB with content := ['C'] })], []⟩

/-- An inactive record, for the stale-fire witness. -/
def recInact : Rec :=
  ⟨['u'], ['u'], ['p'], ['m'], ['x'], oneShot, false, ['x']⟩

def pstInact : PState := ⟨[(['r','4'], recInact)], [['r','4']]⟩

/-- A future-dated active reminder (manager form). -/
def remA : Reminder :=
  ⟨['r','1'], ['u'], ['u'], ['p'], ['m'], dtFut, oneShot, true, nowP⟩

def mstA : MState := ⟨[(['r','1'], remA)], []⟩

/-- An active reminder whose fire time already passed. -/
def remPastR : Reminder :=
  ⟨['r','2'], ['u'], ['u'], ['p'], ['m'], dtPast, oneShot, true, nowP⟩

def mstPast : MState := ⟨[(['r','2'], remPastR)], []⟩

/-- A monthly reminder set for January 31st. -/
def remMon : Reminder :=
  ⟨['r','3'], ['u'], ['u'], ['p'], ['m'], ⟨2025, 1, 31, 10, 0, 0, 0⟩,
   ['每','月'], true, nowP⟩

def mstMon : MState := ⟨[(['r','3'], remMon)], [['r','3']]⟩

/-- A fully-populated valid reminder exercising both microsecond
branches of the ISO round trip. -/
def remC8 : Reminder :=
  ⟨['r','8'], ['u'], ['g','1'], ['g','r','o','u','p'], ['咖','啡'],
   ⟨2025, 6, 1, 10, 30, 0, 123456⟩, ['每','天'], false,
   ⟨2025, 1, 1, 12, 0, 0, 0⟩⟩

/-! # Theorems -/

/-! ## Helper lemmas on the ordered-dict operations -/

theorem lookupK_eraseK (k : Str) (l : List (Str × α)) :
    lookupK k (eraseK k l) = none := by
  induction l with
  | nil => rfl
  | cons p rest ih =>
    by_cases h : p.1 = k
    · simpa [eraseK, List.filter_cons, h] using ih
    · simpa [eraseK, List.filter_cons, h, lookupK] using ih

theorem not_mem_eraseTask (k : Str) (l : List Str) : k ∉ eraseTask k l := by
  simp [eraseTask, List.mem_filter]

theorem lookupK_dinsert (k : Str) (v : α) (l : List (Str × α)) :
    lookupK k (dinsert k v l) = some v := by
  induction l with
  | nil => simp [dinsert, lookupK]
  | cons p rest ih =>
    by_cases h : p.1 = k
    · simp [dinsert, h, lookupK]
    · simp [dinsert, h, lookupK, ih]

theorem dinsert_dinsert (k : Str) (v w : α) (l : List (Str × α)) :
    dinsert k v (dinsert k w l) = dinsert k v l := by
  induction l with
  | nil => simp [dinsert]
  | cons p rest ih =>
    by_cases h : p.1 = k
    · simp [dinsert, h]
    · simp [dinsert, h, ih]

theorem dinsert_self (k : Str) (v : α) (l : List (Str × α))
    (h : lookupK k l = some v) : dinsert k v l = l := by
  induction l with
  | nil => simp [lookupK] at h
  | cons p rest ih =>
    by_cases hk : p.1 = k
    · simp [lookupK, hk] at h
      cases p
      simp_all [dinsert]
    · simp [lookupK, hk] at h
      simp [dinsert, hk, ih h]

theorem mem_addTask (k : Str) (l : List Str) : k ∈ addTask k l := by
  by_cases h : k ∈ l <;> simp [addTask, h]

theorem dinsert_append (k : Str) (v : α) (l : List (Str × α))
    (h : k ∉ keysOf l) : dinsert k v l = l ++ [(k, v)] := by
  induction l with
  | nil => rfl
  | cons p rest ih =>
    simp only [keysOf, List.map_cons, List.mem_cons, not_or] at h
    obtain ⟨h1, h2⟩ := h
    cases p with
    | mk k' v' =>
      have hne : ¬ (k' = k) := by
        intro e
        exact h1 e.symm
      simp only [dinsert, if_neg hne, List.cons_append]
      exact congrArg (List.cons (k', v')) (ih h2)

/-! ## C1: a fired one-shot reminder is always removed -/

/-- **C1.** After `_reminder_task` fires an existing, active reminder
whose `repeat_type` is `不重复`, the record is removed from the store and
from the live-task table — for every delivery outcome sequence
(success, or failure of all retries), since the retry loop never blocks
the repeat handling. -/
theorem c1_oneshot_removed (now : PyDateTime) (st : PState) (rid : Str)
    (r : Rec) (outcomes : List Bool)
    (hr : lookupK rid st.reminders = some r)
    (ha : r.active = true)
    (ht : r.repeat_type = oneShot) :
    lookupK rid (reminder_task now st rid outcomes).1.reminders = none ∧
    rid ∉ (reminder_task now st rid outcomes).1.tasks := by
  unfold reminder_task
  rw [hr]
  simp only [ha, if_true]
  unfold handle_repeat_main
  rw [ht]
  simp only [oneShot, if_true]
  exact ⟨lookupK_eraseK rid st.reminders, not_mem_eraseTask rid st.tasks⟩

/-- Witness for C1: a concrete one-shot reminder, delivery failing on
all three attempts, is still removed. -/
theorem c1_witness :
    lookupK ['r','1']
      (reminder_task nowP pstOne ['r','1'] [false, false, false]).1.reminders
      = none ∧
    ['r','1'] ∉ (reminder_task nowP pstOne ['r','1'] [false, false, false]).1.tasks :=
  c1_oneshot_removed nowP pstOne ['r','1'] recOne [false, false, false]
    (by decide) (by decide) (by decide)

/-! ## C10: a stale timer firing is a pure no-op -/

/-- **C10.** At timer expiry, if the record has been removed from the
store or its `active` flag cleared, `_reminder_task` performs no
delivery attempt (0 attempts) and leaves the state untouched. -/
theorem c10_stale_fire_noop (now : PyDateTime) (st : PState) (rid : Str)
    (outcomes : List Bool)
    (h : lookupK rid st.reminders = none ∨
         ∃ r, lookupK rid st.reminders = some r ∧ r.active = false) :
    reminder_task now st rid outcomes = (st, 0) := by
  unfold reminder_task
  rcases h with h | ⟨r, hr, ha⟩
  · rw [h]
  · rw [hr]
    simp [ha]

/-- Witness for C10: firing a timer whose record is paused changes
nothing and delivers nothing. -/
theorem c10_witness :
    reminder_task nowP pstInact ['r','4'] [true] = (pstInact, 0) :=
  c10_stale_fire_noop nowP pstInact ['r','4'] [true]
    (Or.inr ⟨recInact, by decide, by decide⟩)

/-! ## C9: toggling to the current state -/

/-- **C9 counterexample.** Toggling an existing active reminder to
active again returns `(False, unchanged)` — byte-for-byte the same
result `toggle_reminder` gives for an id that does not exist at all, so
the no-op is *not* reported distinguishably from an unknown-id result;
and the MessageHandler turns that `False` into its failure reply. -/
theorem c9_counterexample :
    toggle_reminder nowP mstA ['r','1'] true = (false, mstA) ∧
    toggle_reminder nowP mstA ['z'] true = (false, mstA) ∧
    toggle_msg_handler nowP mstA ['u'] 1 true = (ToggleReply.failed, mstA) := by
  decide

/-- **C9 amended.** Toggling a reminder to the state it already has is a
state no-op (store, flag and task table unchanged); the core manager
reports it as `False` — the same value as for an unknown id — while the
inline handler of main.py does reply with a distinct
already-active/already-paused message and leaves the state unchanged. -/
theorem c9_amended :
    (∀ (now : PyDateTime) (st : MState) (rid : Str) (r : Reminder) (b : Bool),
      lookupK rid st.reminders = some r → r.active = b →
      toggle_reminder now st rid b = (false, st)) ∧
    (∀ (now : PyDateTime) (st : MState) (rid : Str) (b : Bool),
      lookupK rid st.reminders = none →
      toggle_reminder now st rid b = (false, st)) ∧
    (∀ (now : PyDateTime) (st : PState) (sender : Str) (n : Int)
       (rid : Str) (r : Rec) (b : Bool),
      0 ≤ n - 1 → n - 1 < ((user_all_reminders st sender).length : Int) →
      (user_all_reminders st sender)[(n - 1).toNat]? = some (rid, r) →
      r.active = b →
      toggle_main now st sender n b =
        ((if b then ToggleReply.alreadyOn else ToggleReply.alreadyOff), st)) := by
  refine ⟨?_, ?_, ?_⟩
  · intro now st rid r b hr hb
    unfold toggle_reminder
    rw [hr]
    simp [hb]
  · intro now st rid b h
    unfold toggle_reminder
    rw [h]
  · intro now st sender n rid r b h0 hlen hget hb
    unfold toggle_main
    rw [if_pos ⟨h0, hlen⟩, hget]
    cases b <;> simp_all

/-- Witness for C9 (amended): concrete no-op toggles through all three
surfaces. -/
theorem c9_witness :
    toggle_reminder nowP mstA ['r','1'] true = (false, mstA) ∧
    toggle_main nowP pstOne ['u'] 1 true = (ToggleReply.alreadyOn, pstOne) :=
  ⟨c9_amended.1 nowP mstA ['r','1'] remA true (by decide) (by decide),
   by
    have h := c9_amended.2.2 nowP pstOne ['u'] 1 ['r','1'] recOne true
      (by decide) (by decide) (by decide) (by decide)
    simpa using h⟩

/-! ## C7: pause then resume -/

/-- **C7 counterexample.** For an existing *active* reminder whose
`fire_at` has already passed, pause-then-resume round-trips the flag and
leaves `fire_at` unchanged, but the resume arms **no** live timer
(`_schedule_reminder` only schedules strictly-future times), refuting
the claim's unconditional "the resume re-arms a live timer". -/
theorem c7_counterexample :
    lookupK ['r','2']
      ((toggle_reminder nowP (toggle_reminder nowP mstPast ['r','2'] false).2
        ['r','2'] true).2).reminders = some remPastR ∧
    ['r','2'] ∉
      ((toggle_reminder nowP (toggle_reminder nowP mstPast ['r','2'] false).2
        ['r','2'] true).2).tasks := by
  decide

/-- **C7 amended.** For an existing reminder that is active and whose
`fire_at` is still in the future, pausing then resuming restores the
store exactly (`active` round-trips, `fire_at` and every other field
unchanged); the pause removes the live timer and the resume re-arms
one. -/
theorem c7_pause_resume (now : PyDateTime) (st : MState) (rid : Str)
    (r : Reminder)
    (hr : lookupK rid st.reminders = some r)
    (hid : r.id = rid)
    (ha : r.active = true)
    (hf : PyDateTime.ltB now r.target_time = true) :
    (toggle_reminder now (toggle_reminder now st rid false).2 rid true).2.reminders
      = st.reminders ∧
    lookupK rid (toggle_reminder now st rid false).2.reminders
      = some { r with active := false } ∧
    rid ∉ (toggle_reminder now st rid false).2.tasks ∧
    rid ∈ (toggle_reminder now (toggle_reminder now st rid false).2 rid true).2.tasks := by
  obtain ⟨rid0, sid, tid, tty, cont, tt, rt, act, ca⟩ := r
  simp only at hid ha hf
  subst hid
  subst ha
  have hstep1 :
      toggle_reminder now st rid0 false =
        (true, ⟨dinsert rid0 ⟨rid0, sid, tid, tty, cont, tt, rt, false, ca⟩
                  st.reminders,
                eraseTask rid0 st.tasks⟩) := by
    unfold toggle_reminder
    rw [hr]
    simp
  have hlk1 := lookupK_dinsert rid0
    (⟨rid0, sid, tid, tty, cont, tt, rt, false, ca⟩ : Reminder) st.reminders
  have hstep2 :
      toggle_reminder now
        (⟨dinsert rid0 ⟨rid0, sid, tid, tty, cont, tt, rt, false, ca⟩
            st.reminders,
          eraseTask rid0 st.tasks⟩ : MState) rid0 true =
        (true, ⟨dinsert rid0 ⟨rid0, sid, tid, tty, cont, tt, rt, true, ca⟩
                  (dinsert rid0 ⟨rid0, sid, tid, tty, cont, tt, rt, false, ca⟩
                    st.reminders),
                addTask rid0 (eraseTask rid0 st.tasks)⟩) := by
    unfold toggle_reminder
    simp only [hlk1]
    simp [schedule_reminder, hf]
  rw [hstep1]
  simp only [hstep2]
  refine ⟨?_, hlk1, not_mem_eraseTask rid0 st.tasks, mem_addTask _ _⟩
  rw [dinsert_dinsert]
  exact dinsert_self rid0 _ st.reminders hr

/-- Witness for C7 (amended): a concrete future-dated active reminder. -/
theorem c7_witness :
    (toggle_reminder nowP (toggle_reminder nowP mstA ['r','1'] false).2
      ['r','1'] true).2.reminders = mstA.reminders ∧
    lookupK ['r','1'] (toggle_reminder nowP mstA ['r','1'] false).2.reminders
      = some { remA with active := false } ∧
    ['r','1'] ∉ (toggle_reminder nowP mstA ['r','1'] false).2.tasks ∧
    ['r','1'] ∈ (toggle_reminder nowP (toggle_reminder nowP mstA ['r','1'] false).2
      ['r','1'] true).2.tasks :=
  c7_pause_resume nowP mstA ['r','1'] remA (by decide) (by decide) (by decide)
    (by decide)

/-! ## C4: list vs delete indexing -/

theorem filter_sender_map (l : List (Str × Rec)) (sender : Str)
    (hall : ∀ p ∈ l, p.2.sender_id = sender → p.2.active = true) :
    (l.filter (fun p => decide (p.2.sender_id = sender))).map Prod.snd
      = (l.map Prod.snd).filter
          (fun r => decide (r.sender_id = sender) && r.active) := by
  induction l with
  | nil => rfl
  | cons q rest ih =>
    have ihr := ih (fun p hp hs => hall p (by simp [hp]) hs)
    by_cases hq : q.2.sender_id = sender
    · have hact := hall q (by simp) hq
      simp [List.filter_cons, hq, hact, ihr]
    · simp [List.filter_cons, hq, ihr]

/-- **C4 counterexample.** With a paused record inserted before an
active one for the same user, `删除提醒 1` removes the paused record
`A`, while entry 1 of the list enumeration is the active record `B`:
the two commands index different orderings. -/
theorem c4_counterexample :
    (handle_delete_reminder pstTwo ['u'] 1).2 = some (['a'], recPaused) ∧
    (user_active_reminders pstTwo ['u'])[0]? = some recActiveB ∧
    recPaused ≠ recActiveB ∧
    lookupK ['b'] (handle_delete_reminder pstTwo ['u'] 1).1.reminders
      = some recActiveB ∧
    lookupK ['a'] (handle_delete_reminder pstTwo ['u'] 1).1.reminders = none := by
  decide

/-- **C4 amended.** The delete command indexes the caller's reminders
*without* an active filter; this coincides with the list enumeration
exactly when every reminder of the caller is active, and in that case
the record removed by `删除提醒 n` is the `n`-th entry of the list. -/
theorem c4_amended (st : PState) (sender : Str)
    (hall : ∀ p ∈ st.reminders, p.2.sender_id = sender → p.2.active = true) :
    (user_all_reminders st sender).map Prod.snd
      = user_active_reminders st sender ∧
    ∀ (n : Int) (p : Str × Rec),
      (handle_delete_reminder st sender n).2 = some p →
      (user_active_reminders st sender)[(n - 1).toNat]? = some p.2 := by
  have h1 : (user_all_reminders st sender).map Prod.snd
      = user_active_reminders st sender :=
    filter_sender_map st.reminders sender hall
  refine ⟨h1, ?_⟩
  intro n p hp
  unfold handle_delete_reminder at hp
  by_cases hcond : 0 ≤ n - 1 ∧
      n - 1 < ((user_all_reminders st sender).length : Int)
  · rw [if_pos hcond] at hp
    cases hget : (user_all_reminders st sender)[(n - 1).toNat]? with
    | none => rw [hget] at hp; simp at hp
    | some q =>
      rw [hget] at hp
      simp only [Option.some.injEq] at hp
      subst hp
      rw [← h1, List.getElem?_map, hget]
      rfl
  · rw [if_neg hcond] at hp
    simp at hp

/-- Witness for C4 (amended): an all-active two-entry store where the
orderings agree and `删除提醒 1` removes exactly list entry 1. -/
theorem c4_witness :
    (user_all_reminders pstAct2 ['u']).map Prod.snd
      = user_active_reminders pstAct2 ['u'] ∧
    (user_active_reminders pstAct2 ['u'])[0]? = some recActiveB :=
  ⟨(c4_amended pstAct2 ['u'] (by decide)).1,
   (c4_amended pstAct2 ['u'] (by decide)).2 1 (['a'], recActiveB) (by decide)⟩

/-! ## C2: id uniqueness across creates -/

theorem digVal_digChar (d : Nat) (h : d < 10) : digVal (digChar d) = d := by
  interval_cases d <;> decide

theorem readNatAux_append (a b : Str) (acc : Nat) :
    readNatAux acc (a ++ b) = readNatAux (readNatAux acc a) b := by
  induction a generalizing acc with
  | nil => rfl
  | cons c rest ih => exact ih (acc * 10 + digVal c)

theorem natReprF_congr : ∀ f1 f2 n, n ≤ f1 → n ≤ f2 →
    natReprF f1 n = natReprF f2 n := by
  intro f1
  induction f1 with
  | zero =>
    intro f2 n h1 _
    have hn : n = 0 := by omega
    subst hn
    cases f2 with
    | zero => rfl
    | succ f2 => simp [natReprF]
  | succ f1 ih =>
    intro f2 n h1 h2
    cases f2 with
    | zero =>
      have hn : n = 0 := by omega
      subst hn
      simp [natReprF]
    | succ f2 =>
      simp only [natReprF]
      by_cases h : n < 10
      · simp [h]
      · simp only [h, if_false]
        have hlt := Nat.div_lt_self (n := n) (by omega) (by omega : 1 < 10)
        rw [ih f2 (n / 10) (by omega) (by omega)]

/-- The recurrence satisfied by `natRepr` (the shape of the Python
decimal rendering). -/
theorem natRepr_eq (n : Nat) :
    natRepr n = if n < 10 then [digChar n]
                else natRepr (n / 10) ++ [digChar (n % 10)] := by
  by_cases h : n < 10
  · cases n with
    | zero => simp [natRepr, natReprF, h]
    | succ m => simp [natRepr, natReprF, h]
  · obtain ⟨m, rfl⟩ : ∃ m, n = m + 1 := ⟨n - 1, by omega⟩
    simp only [natRepr, natReprF, h, if_false]
    have hlt := Nat.div_lt_self (n := m + 1) (by omega) (by omega : 1 < 10)
    rw [natReprF_congr m ((m + 1) / 10) ((m + 1) / 10) (by omega) (le_refl _)]

theorem readNatAux_nil (acc : Nat) : readNatAux acc [] = acc := rfl

theorem readNatAux_cons (acc : Nat) (c : Char) (rest : Str) :
    readNatAux acc (c :: rest) = readNatAux (acc * 10 + digVal c) rest := rfl

theorem readNatAux_natReprF (f : Nat) : ∀ n acc, n ≤ f →
    readNatAux acc (natReprF f n)
      = acc * 10 ^ (natReprF f n).length + n := by
  induction f with
  | zero =>
    intro n acc h
    have hn : n = 0 := by omega
    subst hn
    simp only [natReprF, readNatAux_cons, readNatAux_nil,
      digVal_digChar 0 (by omega), List.length_singleton, pow_one]
  | succ f ih =>
    intro n acc h
    by_cases h10 : n < 10
    · simp only [natReprF, h10, if_true, readNatAux_cons, readNatAux_nil,
        digVal_digChar n h10, List.length_singleton, pow_one]
    · have hlt := Nat.div_lt_self (n := n) (by omega) (by omega : 1 < 10)
      have hstep : natReprF (f + 1) n
          = natReprF f (n / 10) ++ [digChar (n % 10)] := by
        simp only [natReprF, h10, if_false]
      rw [hstep, readNatAux_append,
        ih (n / 10) acc (by omega)]
      simp only [readNatAux_cons, readNatAux_nil,
        digVal_digChar (n % 10) (by omega),
        List.length_append, List.length_singleton]
      calc (acc * 10 ^ (natReprF f (n / 10)).length + n / 10) * 10 + n % 10
          = acc * (10 ^ (natReprF f (n / 10)).length * 10)
              + (10 * (n / 10) + n % 10) := by ring
        _ = acc * 10 ^ ((natReprF f (n / 10)).length + 1) + n := by
              rw [Nat.div_add_mod, pow_succ]

theorem readNat_natRepr (n : Nat) : readNat (natRepr n) = n := by
  have h := readNatAux_natReprF n n 0 (le_refl n)
  simpa [readNat, natRepr] using h

theorem natRepr_inj : Function.Injective natRepr := by
  intro a b h
  have ha := readNat_natRepr a
  have hb := readNat_natRepr b
  rw [h] at ha
  omega

theorem isDig_digChar_any (d : Nat) : isDig (digChar d) = true := by
  unfold digChar
  split <;> decide

theorem natReprF_digits (f : Nat) : ∀ n c, c ∈ natReprF f n →
    isDig c = true := by
  induction f with
  | zero =>
    intro n c hc
    simp only [natReprF, List.mem_singleton] at hc
    subst hc
    exact isDig_digChar_any n
  | succ f ih =>
    intro n c hc
    by_cases h10 : n < 10
    · simp only [natReprF, h10, if_true, List.mem_singleton] at hc
      subst hc
      exact isDig_digChar_any n
    · simp only [natReprF, h10, if_false, List.mem_append,
        List.mem_singleton] at hc
      rcases hc with hc | hc
      · exact ih (n / 10) c hc
      · subst hc
        exact isDig_digChar_any (n % 10)

theorem natRepr_digits (n : Nat) : ∀ c ∈ natRepr n, isDig c = true :=
  fun c hc => natReprF_digits n n c hc

theorem natReprF_ne_nil (f : Nat) : ∀ n, natReprF f n ≠ [] := by
  induction f with
  | zero => intro n; simp [natReprF]
  | succ f ih =>
    intro n
    by_cases h10 : n < 10 <;> simp [natReprF, h10]

theorem natRepr_ne_nil (n : Nat) : natRepr n ≠ [] := natReprF_ne_nil n n

theorem mkRid_inj (sender : Str) : Function.Injective (mkRid sender) := by
  intro a b h
  unfold mkRid at h
  have h2 := List.append_cancel_left h
  simp only [List.cons.injEq, true_and] at h2
  exact natRepr_inj h2

theorem schedule_reminder_reminders (now : PyDateTime) (r : Reminder)
    (st : MState) : (schedule_reminder now r st).reminders = st.reminders := by
  unfold schedule_reminder
  split <;> rfl

theorem create_many_keys (now : PyDateTime) (sender : Str) (tt : PyDateTime)
    (l : List (Nat × Str)) : ∀ st : MState,
    (∀ ts ∈ l.map Prod.fst, mkRid sender ts ∉ keysOf st.reminders) →
    (l.map Prod.fst).Nodup →
    keysOf (create_many now sender tt l st).reminders
      = keysOf st.reminders ++ (l.map Prod.fst).map (mkRid sender) := by
  induction l with
  | nil =>
    intro st _ _
    simp [create_many]
  | cons p rest ih =>
    intro st hdisj hnd
    obtain ⟨ts, c⟩ := p
    simp only [List.map_cons, List.mem_cons, List.nodup_cons] at hdisj hnd
    have hmem : mkRid sender ts ∉ keysOf st.reminders := hdisj _ (Or.inl rfl)
    have hrem :
        (create_reminder now sender sender ['p'] c ts tt ['不','重','复']
          st).reminders
        = st.reminders ++
          [(mkRid sender ts,
            ⟨mkRid sender ts, sender, sender, ['p'], c, tt,
             ['不','重','复'], true, now⟩)] := by
      unfold create_reminder
      rw [schedule_reminder_reminders]
      exact dinsert_append _ _ _ hmem
    show keysOf (create_many now sender tt rest _).reminders = _
    rw [ih _ ?_ hnd.2]
    · rw [hrem]
      simp [keysOf, List.map_cons]
    · intro ts' hts'
      rw [hrem]
      simp only [keysOf, List.map_append, List.mem_append]
      rintro (hin | hin)
      · exact hdisj ts' (Or.inr hts') hin
      · simp only [List.map_cons, List.map_nil, List.mem_singleton] at hin
        exact hnd.1 (natRepr_inj
          (by
            have := List.append_cancel_left (hin : mkRid sender ts' = _)
            simpa [List.cons.injEq] using this) ▸ hts')

/-- **C2 counterexample.** Two successful creates by user `u` within
the same clock second (`int(timestamp)` both 100) generate the *same*
id, and the second dict write silently overwrites the first: the store
holds one record (content `b`), not two. -/
theorem c2_counterexample :
    ((create_many nowP ['u'] dtFut [(100, ['a']), (100, ['b'])]
      ⟨[], []⟩).reminders).length = 1 ∧
    lookupK (mkRid ['u'] 100)
      (create_many nowP ['u'] dtFut [(100, ['a']), (100, ['b'])]
        ⟨[], []⟩).reminders
      = some ⟨mkRid ['u'] 100, ['u'], ['u'], ['p'], ['b'], dtFut,
              oneShot, true, nowP⟩ := by
  decide

/-- **C2 amended.** Ids collide only through equal whole-second creation
timestamps for the same owner: when the N successful creates of one
owner carry pairwise distinct `int(timestamp)` readings, the store ends
with exactly N records under N distinct ids. -/
theorem c2_amended (now : PyDateTime) (sender : Str) (tt : PyDateTime)
    (l : List (Nat × Str)) (hnd : (l.map Prod.fst).Nodup) :
    ((create_many now sender tt l ⟨[], []⟩).reminders).length = l.length ∧
    (keysOf (create_many now sender tt l ⟨[], []⟩).reminders).Nodup := by
  have hk := create_many_keys now sender tt l ⟨[], []⟩ (by simp [keysOf]) hnd
  constructor
  · have hlen := congrArg List.length hk
    simpa [keysOf] using hlen
  · rw [hk]
    simpa using hnd.map (mkRid_inj sender)

/-- Witness for C2 (amended): two creates one second apart leave two
records with distinct ids. -/
theorem c2_witness :
    ((create_many nowP ['u'] dtFut [(100, ['a']), (101, ['b'])]
      ⟨[], []⟩).reminders).length = 2 ∧
    (keysOf (create_many nowP ['u'] dtFut [(100, ['a']), (101, ['b'])]
      ⟨[], []⟩).reminders).Nodup :=
  c2_amended nowP ['u'] dtFut [(100, ['a']), (101, ['b'])] (by decide)

/-! ## C3: monthly recurrence -/

/-- **C3 counterexample.** A monthly reminder whose `fire_at` is
January 31st: the recurrence computation `replace(month=2)` raises
(day 31 does not exist in February) instead of clamping, and the repeat
handler leaves the store entry and its stale task untouched. -/
theorem c3_counterexample :
    next_monthly ⟨2025, 1, 31, 10, 0, 0, 0⟩ = .error () ∧
    handle_repeat_mgr nowP mstMon remMon = mstMon := by
  decide

/-- **C3 amended.** For a valid datetime, the monthly recurrence
computation succeeds and preserves the day-of-month — December rolling
to January of the next year — exactly when the day exists in the target
month (and, for December, the year does not overflow `MAXYEAR`);
when the day-of-month overflows the target month, the computation
raises instead of clamping. -/
theorem c3_monthly (dt : PyDateTime) (hv : dt.Valid) :
    (dt.month ≠ 12 → dt.day ≤ daysInMonth dt.year (dt.month + 1) →
      next_monthly dt = .ok { dt with month := dt.month + 1 }) ∧
    (dt.month = 12 → dt.year + 1 ≤ 9999 →
      next_monthly dt = .ok { dt with year := dt.year + 1, month := 1 }) ∧
    (dt.month ≠ 12 → daysInMonth dt.year (dt.month + 1) < dt.day →
      next_monthly dt = .error ()) := by
  simp only [PyDateTime.Valid, PyDateTime.validB, Bool.and_eq_true,
    decide_eq_true_eq] at hv
  obtain ⟨⟨⟨⟨⟨⟨⟨⟨⟨hy1, hy2⟩, hm1⟩, hm2⟩, hd1⟩, hd2⟩, hh⟩, hmi⟩, hs⟩, hus⟩ := hv
  refine ⟨?_, ?_, ?_⟩
  · intro h12 hday
    unfold next_monthly pyReplaceYM
    rw [if_neg h12, if_pos]
    exact ⟨hy1, hy2, by omega, by omega, hd1, hday⟩
  · intro h12 hy
    unfold next_monthly pyReplaceYM
    rw [if_pos h12, if_pos]
    refine ⟨by omega, hy, by omega, by omega, hd1, ?_⟩
    have h31 : daysInMonth dt.year dt.month = 31 := by rw [h12]; rfl
    have : daysInMonth (dt.year + 1) 1 = 31 := rfl
    omega
  · intro h12 hday
    unfold next_monthly pyReplaceYM
    rw [if_neg h12, if_neg]
    intro hcond
    omega

/-- Witness for C3 (amended): a mid-month date advances with its day
preserved, and a December date rolls to January of the next year. -/
theorem c3_witness :
    next_monthly ⟨2025, 3, 15, 9, 30, 0, 0⟩
      = .ok ⟨2025, 4, 15, 9, 30, 0, 0⟩ ∧
    next_monthly ⟨2024, 12, 31, 8, 0, 0, 0⟩
      = .ok ⟨2025, 1, 31, 8, 0, 0, 0⟩ :=
  ⟨(c3_monthly ⟨2025, 3, 15, 9, 30, 0, 0⟩ (by decide)).1
      (by decide) (by decide),
   (c3_monthly ⟨2024, 12, 31, 8, 0, 0, 0⟩ (by decide)).2.1
      (by decide) (by decide)⟩

/-! ## C8: serialisation round trip -/

theorem readFixed_pad (w n : Nat) (hn : n < 10 ^ w) : ∀ acc rest,
    readFixed w acc (padDigits w n ++ rest) = some (acc * 10 ^ w + n, rest) := by
  induction w generalizing n with
  | zero =>
    intro acc rest
    have hz : n = 0 := by simpa using hn
    subst hz
    simp [padDigits, readFixed]
  | succ w ih =>
    intro acc rest
    have hq : n / 10 ^ w < 10 := by
      apply Nat.div_lt_of_lt_mul
      calc n < 10 ^ (w + 1) := hn
        _ = 10 ^ w * 10 := by rw [pow_succ]
    have hr : n % 10 ^ w < 10 ^ w := Nat.mod_lt _ (Nat.pos_pow_of_pos w (by omega))
    simp only [padDigits, List.cons_append, List.append_eq, readFixed,
      isDig_digChar_any, if_true, digVal_digChar _ hq]
    rw [ih (n % 10 ^ w) hr (acc * 10 + n / 10 ^ w) rest]
    congr 2
    calc (acc * 10 + n / 10 ^ w) * 10 ^ w + n % 10 ^ w
        = acc * (10 ^ w * 10) + (10 ^ w * (n / 10 ^ w) + n % 10 ^ w) := by ring
      _ = acc * 10 ^ (w + 1) + n := by rw [Nat.div_add_mod, pow_succ]
        
theorem expectC_same (c : Char) (rest : Str) :
    expectC c (c :: rest) = some rest := by
  simp [expectC]

theorem valid_bounds (d : PyDateTime) (hv : d.Valid) :
    1 ≤ d.year ∧ d.year ≤ 9999 ∧ 1 ≤ d.month ∧ d.month ≤ 12 ∧
    1 ≤ d.day ∧ d.day ≤ daysInMonth d.year d.month ∧
    d.hour ≤ 23 ∧ d.minute ≤ 59 ∧ d.second ≤ 59 ∧ d.micro ≤ 999999 := by
  simp only [PyDateTime.Valid, PyDateTime.validB, Bool.and_eq_true,
    decide_eq_true_eq] at hv
  obtain ⟨⟨⟨⟨⟨⟨⟨⟨⟨hy1, hy2⟩, hm1⟩, hm2⟩, hd1⟩, hd2⟩, hh⟩, hmi⟩, hs⟩, hus⟩ := hv
  exact ⟨hy1, hy2, hm1, hm2, hd1, hd2, hh, hmi, hs, hus⟩

theorem daysInMonth_le_31 (y m : Nat) : daysInMonth y m ≤ 31 := by
  unfold daysInMonth
  split
  · split <;> omega
  all_goals omega

theorem fromiso_iso (d : PyDateTime) (hv : d.Valid) :
    fromisoformat (isoformat d) = .ok d := by
  obtain ⟨hy1, hy2, hm1, hm2, hd1, hd2, hh2, hmi2, hs2, hus2⟩ :=
    valid_bounds d hv
  have hdy31 : d.day < 100 := by
    have := daysInMonth_le_31 d.year d.month
    omega
  unfold fromisoformat parseIso isoformat
  simp only [List.append_assoc, List.cons_append,
    readFixed_pad 4 d.year (by omega), readFixed_pad 2 d.month (by omega),
    readFixed_pad 2 d.day (by omega), readFixed_pad 2 d.hour (by omega),
    readFixed_pad 2 d.minute (by omega), readFixed_pad 2 d.second (by omega),
    expectC_same, Option.some_bind]
  simp only [Nat.zero_mul, Nat.zero_add]
  by_cases hm0 : d.micro = 0
  · rw [if_pos hm0]
    simp only [← hm0, hv, if_true]
  · rw [if_neg hm0]
    rw [show padDigits 6 d.micro = padDigits 6 d.micro ++ [] from
      (List.append_nil _).symm]
    simp only [readFixed_pad 6 d.micro (by omega), Option.some_bind,
      Nat.zero_mul, Nat.zero_add, hv, if_true]

theorem load_aux_save (st : List (Str × Reminder))
    (hv : ∀ p ∈ st, p.2.target_time.Valid ∧ p.2.created_at.Valid) :
    load_aux (save_reminders st) = .ok st := by
  induction st with
  | nil => rfl
  | cons p rest ih =>
    obtain ⟨k, r⟩ := p
    obtain ⟨h1, h2⟩ := hv (k, r) (by simp)
    have hfd : from_dict (to_dict r) = .ok r := by
      unfold from_dict to_dict
      simp only [fromiso_iso r.target_time h1, fromiso_iso r.created_at h2,
        Option.getD_some]
    have ihr := ih (fun q hq => hv q (by simp [hq]))
    show load_aux ((k, to_dict r) :: save_reminders rest) = _
    simp only [load_aux, hfd, ihr]

/-- **C8.** Serialising a reminder through `to_dict` and reading it back
with `from_dict` reproduces every field exactly — id, owner, destination
(target id and type), content, `target_time`, `repeat_type`, `active`
and `created_at` — and the same holds store-wide for
`_save_reminders`/`_load_reminders`, which models a process restart.
(The validity hypotheses hold for every datetime Python can
construct.) -/
theorem c8_roundtrip :
    (∀ r : Reminder, r.target_time.Valid → r.created_at.Valid →
      from_dict (to_dict r) = .ok r) ∧
    (∀ st : List (Str × Reminder),
      (∀ p ∈ st, p.2.target_time.Valid ∧ p.2.created_at.Valid) →
      load_reminders (save_reminders st) = st) := by
  constructor
  · intro r h1 h2
    unfold from_dict to_dict
    simp only [fromiso_iso r.target_time h1, fromiso_iso r.created_at h2,
      Option.getD_some]
  · intro st hv
    unfold load_reminders
    rw [load_aux_save st hv]

/-- Witness for C8: a concrete fully-populated reminder (nonzero
microseconds on `target_time`, zero on `created_at`) survives the
round trip, alone and store-wide. -/
theorem c8_witness :
    from_dict (to_dict remC8) = .ok remC8 ∧
    load_reminders (save_reminders [(['r','8'], remC8)])
      = [(['r','8'], remC8)] :=
  ⟨c8_roundtrip.1 remC8 (by decide) (by decide),
   c8_roundtrip.2 [(['r','8'], remC8)]
     (by intro p hp; simp at hp; rw [hp]; exact ⟨by decide, by decide⟩)⟩

/-! ## C6: totality and the raw-string retry of parse_time -/

theorem runParsers_future (ps : List (Str → Except Unit (Option Int)))
    (now : Int) (s : Str) (r : Int)
    (h : runParsers ps now s = .ok (some r)) : now < r := by
  induction ps with
  | nil => simp [runParsers] at h
  | cons p rest ih =>
    unfold runParsers at h
    split at h
    · simp at h
    · split at h
      · rename_i hlt
        simp only [Except.ok.injEq, Option.some.injEq] at h
        subst h
        exact hlt
      · exact ih h
    · exact ih h

/-- **C6 counterexample.** On `三点99分钟后`, the preprocessor rewrites
`三点` to `3点`, `_parse_specific_time` then extracts minute 99 and
`now.replace(minute=99)` raises; the exception propagates to the outer
`try` of `parse_time`, which returns `None` *without* retrying the raw
string — although running the five sub-parsers on the raw string would
succeed (the manual relative parser yields now + 99 minutes).  This
refutes the claim's "including when a sub-parser raises". -/
theorem c6_counterexample :
    parse_time dpNone 0 ['三','点','9','9','分','钟','后'] = none ∧
    runParsers (subParsers dpNone 0) 0 ['三','点','9','9','分','钟','后']
      = .ok (some (99 * minuteU)) := by
  decide

/-- **C6 amended.** `parse_time` is total with `None` as its only
failure value, and a returned timestamp is always strictly in the
future; when every sub-parser on the normalized string completes
without raising and none is accepted, the full five-sub-parser sequence
is retried on the unmodified raw string — but an exception inside any
sub-parser makes `parse_time` return `None` immediately, skipping the
rest of the pipeline and the raw retry. -/
theorem c6_parse_time_total :
    (∀ (dp : Str → Except Unit (Option Int)) (now : Int) (s : Str) (r : Int),
      parse_time dp now s = some r → now < r) ∧
    (∀ (dp : Str → Except Unit (Option Int)) (now : Int) (s : Str),
      runParsers (subParsers dp now) now (preprocess s) = .ok none →
      parse_time dp now s =
        (match runParsers (subParsers dp now) now s with
         | .error _ => none
         | .ok o => o)) ∧
    (∀ (dp : Str → Except Unit (Option Int)) (now : Int) (s : Str) (e : Unit),
      runParsers (subParsers dp now) now (preprocess s) = .error e →
      parse_time dp now s = none) := by
  refine ⟨?_, ?_, ?_⟩
  · intro dp now s r h
    unfold parse_time at h
    cases hn : runParsers (subParsers dp now) now (preprocess s) with
    | error e => rw [hn] at h; cases h
    | ok o =>
      rw [hn] at h
      cases o with
      | some v =>
        simp only [Option.some.injEq] at h
        subst h
        exact runParsers_future _ now (preprocess s) v hn
      | none =>
        cases hr : runParsers (subParsers dp now) now s with
        | error e => rw [hr] at h; cases h
        | ok o2 =>
          rw [hr] at h
          cases o2 with
          | none => cases h
          | some v =>
            simp only [Option.some.injEq] at h
            subst h
            exact runParsers_future _ now s v hr
  · intro dp now s h
    unfold parse_time
    rw [h]
  · intro dp now s e h
    unfold parse_time
    rw [h]

/-- Witness for C6 (amended): a concrete accepted parse is strictly
future, and a string every sub-parser cleanly fails on goes through the
raw retry. -/
theorem c6_witness :
    ((0 : Int) < 5 * minuteU) ∧
    parse_time dpNone 0 ['z'] =
      (match runParsers (subParsers dpNone 0) 0 ['z'] with
       | .error _ => none
       | .ok o => o) :=
  ⟨c6_parse_time_total.1 dpNone 0 ['5','分','钟','后'] (5 * minuteU)
     (by decide),
   c6_parse_time_total.2.1 dpNone 0 ['z'] (by decide)⟩

/-! ## C5: helper lemmas on substring search and preprocessing -/

theorem mem_of_isPrefixB (pat s : Str) (h : isPrefixB pat s = true) :
    ∀ c ∈ pat, c ∈ s := by
  induction pat generalizing s with
  | nil => intro c hc; simp at hc
  | cons a as ih =>
    cases s with
    | nil => simp [isPrefixB] at h
    | cons b bs =>
      simp only [isPrefixB, Bool.and_eq_true, decide_eq_true_eq] at h
      intro c hc
      rcases List.mem_cons.1 hc with hc | hc
      · subst hc
        rw [h.1]
        exact List.mem_cons_self _ _
      · exact List.mem_cons_of_mem _ (ih bs h.2 c hc)

theorem mem_of_containsSub (pat s : Str) (h : containsSub pat s = true) :
    ∀ c ∈ pat, c ∈ s := by
  induction s with
  | nil =>
    intro c hc
    cases pat with
    | nil => simp at hc
    | cons a as => simp [containsSub, isPrefixB] at h
  | cons b bs ih =>
    simp only [containsSub, Bool.or_eq_true] at h
    intro c hc
    rcases h with h | h
    · exact mem_of_isPrefixB pat _ h c hc
    · exact List.mem_cons_of_mem _ (ih h c hc)

theorem containsSub_false_of_missing (c : Char) (pat s : Str)
    (hc : c ∈ pat) (hs : c ∉ s) : containsSub pat s = false := by
  cases h : containsSub pat s with
  | false => rfl
  | true => exact absurd (mem_of_containsSub pat s h c hc) hs

theorem isPrefixB_self_append (pat r : Str) :
    isPrefixB pat (pat ++ r) = true := by
  induction pat with
  | nil => rfl
  | cons a as ih => simp [isPrefixB, ih]

theorem containsSub_nil_pat (s : Str) : containsSub [] s = true := by
  cases s <;> rfl

theorem containsSub_append_mid (l pat r : Str) :
    containsSub pat (l ++ (pat ++ r)) = true := by
  induction l with
  | nil =>
    cases pat with
    | nil => simpa using containsSub_nil_pat r
    | cons p pt =>
      simp only [List.nil_append, List.cons_append, containsSub,
        List.append_eq]
      rw [show p :: (pt ++ r) = (p :: pt) ++ r from rfl,
        isPrefixB_self_append]
      rfl
  | cons a l ih =>
    simp only [List.cons_append, containsSub, List.append_eq, ih,
      Bool.or_true]

theorem containsSub_single (c : Char) (s : Str) (h : c ∈ s) :
    containsSub [c] s = true := by
  induction s with
  | nil => simp at h
  | cons b bs ih =>
    rcases List.mem_cons.1 h with h | h
    · subst h
      simp [containsSub, isPrefixB]
    · simp [containsSub, ih h]

theorem containsSub_false_of_all (pat s suf : Str)
    (hs : ∀ c ∈ s, isDig c = true ∨ c ∈ suf)
    (hpat : ∃ c ∈ pat, isDig c = false ∧ c ∉ suf) :
    containsSub pat s = false := by
  obtain ⟨c, hcp, hcd, hcs⟩ := hpat
  refine containsSub_false_of_missing c pat s hcp ?_
  intro hmem
  rcases hs c hmem with h | h
  · rw [h] at hcd
    cases hcd
  · exact hcs h

theorem replaceAllF_id (pat rep : Str) (f : Nat) : ∀ s : Str,
    containsSub pat s = false → replaceAllF pat rep f s = s := by
  induction f with
  | zero =>
    intro s _
    cases s <;> rfl
  | succ f ih =>
    intro s h
    cases s with
    | nil => rfl
    | cons c rest =>
      simp only [containsSub, Bool.or_eq_false_iff] at h
      have hcond : ¬ (pat ≠ [] ∧ isPrefixB pat (c :: rest) = true) := by
        intro ⟨_, hp⟩
        rw [h.1] at hp
        cases hp
      simp only [replaceAllF, if_neg hcond]
      rw [ih rest h.2]

theorem replaceAll_id (pat rep s : Str) (h : containsSub pat s = false) :
    replaceAll pat rep s = s :=
  replaceAllF_id pat rep s.length s h

theorem applyMap_id (m : List (Str × Str)) (s : Str)
    (h : ∀ p ∈ m, containsSub p.1 s = false) : applyMap m s = s := by
  induction m with
  | nil => rfl
  | cons p rest ih =>
    show applyMap rest (replaceAll p.1 p.2 s) = s
    rw [replaceAll_id p.1 p.2 s (h p (by simp))]
    exact ih (fun q hq => h q (by simp [hq]))

theorem takeWhile_all (p : Char → Bool) (l : Str)
    (h : ∀ c ∈ l, p c = true) : l.takeWhile p = l := by
  induction l with
  | nil => rfl
  | cons c rest ih =>
    simp only [List.takeWhile_cons, h c (by simp), if_true]
    rw [ih (fun x hx => h x (by simp [hx]))]

theorem dropWhile_all (p : Char → Bool) (l : Str)
    (h : ∀ c ∈ l, p c = true) : l.dropWhile p = [] := by
  induction l with
  | nil => rfl
  | cons c rest ih =>
    simp only [List.dropWhile_cons, h c (by simp), if_true]
    exact ih (fun x hx => h x (by simp [hx]))

theorem pyWords_single (s : Str) (hne : s ≠ [])
    (h : ∀ c ∈ s, isSpc c = false) : pyWords s = [s] := by
  cases s with
  | nil => exact absurd rfl hne
  | cons c rest =>
    show pyWordsF (rest.length + 1) (c :: rest) = [c :: rest]
    have hc : isSpc c = false := h c (by simp)
    simp only [pyWordsF, hc, Bool.false_eq_true, if_false]
    have ht : rest.takeWhile (fun d => !isSpc d) = rest :=
      takeWhile_all _ rest (fun x hx => by simp [h x (by simp [hx])])
    have hd : rest.dropWhile (fun d => !isSpc d) = [] :=
      dropWhile_all _ rest (fun x hx => by simp [h x (by simp [hx])])
    rw [ht, hd]
    cases rest.length <;> rfl

theorem isSpc_eq_false_of_isDig (c : Char) (h : isDig c = true) :
    isSpc c = false := by
  simp only [isDig, Bool.and_eq_true, decide_eq_true_eq] at h
  simp only [isSpc, Bool.or_eq_false_iff, decide_eq_false_iff_not]
  refine ⟨⟨⟨?_, ?_⟩, ?_⟩, ?_⟩ <;> rintro rfl <;> revert h <;> decide

theorem isMark_eq_false_of_isDig (c : Char) (h : isDig c = true) :
    isMark c = false := by
  simp only [isDig, Bool.and_eq_true, decide_eq_true_eq] at h
  simp only [isMark, Bool.or_eq_false_iff, decide_eq_false_iff_not]
  constructor <;> rintro rfl <;> revert h <;> decide

theorem ne_of_isDig_of_not (c x : Char) (hc : isDig c = true)
    (hx : isDig x = false) : c ≠ x := by
  intro e
  subst e
  rw [hc] at hx
  cases hx

theorem mem_digit_suffix (n : Nat) (suf : Str) (c : Char)
    (hc : c ∈ natRepr n ++ suf) : isDig c = true ∨ c ∈ suf := by
  rcases List.mem_append.1 hc with h | h
  · exact Or.inl (natRepr_digits n c h)
  · exact Or.inr h

/-- The preprocessor leaves a digits-plus-suffix string unchanged when
every replacement pattern misses it and the suffix has no
whitespace. -/
theorem preprocess_id_of (n : Nat) (suf : Str)
    (hsufsp : ∀ c ∈ suf, isSpc c = false)
    (h1 : ∀ p ∈ weekday_map, ∃ c ∈ p.1, isDig c = false ∧ c ∉ suf)
    (h2 : ∀ p ∈ time_map, ∃ c ∈ p.1, isDig c = false ∧ c ∉ suf)
    (h3 : ∀ p ∈ chinese_nums, ∃ c ∈ p.1, isDig c = false ∧ c ∉ suf) :
    preprocess (natRepr n ++ suf) = natRepr n ++ suf := by
  have hs := mem_digit_suffix n suf
  have hne : natRepr n ++ suf ≠ [] := by
    intro h
    exact natRepr_ne_nil n (List.append_eq_nil.1 h).1
  have hsp : ∀ c ∈ natRepr n ++ suf, isSpc c = false := by
    intro c hc
    rcases hs c hc with h | h
    · exact isSpc_eq_false_of_isDig c h
    · exact hsufsp c h
  unfold preprocess
  rw [pyWords_single _ hne hsp]
  show applyMap chinese_nums (applyMap time_map (applyMap weekday_map
    (natRepr n ++ suf))) = _
  rw [applyMap_id weekday_map _
      (fun p hp => containsSub_false_of_all p.1 _ suf hs (h1 p hp)),
    applyMap_id time_map _
      (fun p hp => containsSub_false_of_all p.1 _ suf hs (h2 p hp)),
    applyMap_id chinese_nums _
      (fun p hp => containsSub_false_of_all p.1 _ suf hs (h3 p hp))]

/-! ### The first three sub-parsers fail on digits-plus-unit strings -/

theorem reSearch_nextWeekAt_none (s : Str)
    (h : ∀ c ∈ s, ¬ c = '下') : reSearch nextWeekAt s = none := by
  induction s with
  | nil => rfl
  | cons c rest ih =>
    have hc : ¬ ('下' = c) := fun e => h c (by simp) e.symm
    unfold reSearch
    rw [show nextWeekAt (c :: rest) = none from by
      simp [nextWeekAt, isPrefixB, decide_eq_false hc]]
    exact ih (fun x hx => h x (by simp [hx]))

theorem reSearch_thisWeekAt_none (s : Str)
    (h : ∀ c ∈ s, ¬ c = '本' ∧ ¬ c = '这') :
    reSearch thisWeekAt s = none := by
  induction s with
  | nil => rfl
  | cons c rest ih =>
    have hc1 : ¬ ('本' = c) := fun e => (h c (by simp)).1 e.symm
    have hc2 : ¬ ('这' = c) := fun e => (h c (by simp)).2 e.symm
    unfold reSearch
    rw [show thisWeekAt (c :: rest) = none from by
      simp [thisWeekAt, isPrefixB, decide_eq_false hc1, decide_eq_false hc2]]
    exact ih (fun x hx => h x (by simp [hx]))

theorem wd_plain_none (lst : List (Str × Nat)) (now : Int) (s : Str)
    (h : ∀ p ∈ lst, containsSub p.1 s = false) :
    wd_plain lst now s = .ok none := by
  induction lst with
  | nil => rfl
  | cons p rest ih =>
    obtain ⟨name, wd⟩ := p
    show (if containsSub name s = true then _ else wd_plain rest now s) = _
    rw [h (name, wd) (by simp)]
    simp only [Bool.false_eq_true, if_false]
    exact ih (fun q hq => h q (by simp [hq]))

theorem parse_weekday_time_none (now : Int) (s : Str)
    (hxia : ∀ c ∈ s, ¬ c = '下') (hben : ∀ c ∈ s, ¬ c = '本' ∧ ¬ c = '这')
    (hstar : ∀ c ∈ s, ¬ c = '星') :
    parse_weekday_time now s = .ok none := by
  have hwd : ∀ p ∈ weekdays, containsSub p.1 s = false := by
    intro p hp
    have hstar_mem : '星' ∈ p.1 := by
      fin_cases hp <;> simp
    exact containsSub_false_of_missing '星' p.1 s hstar_mem
      (fun hmem => hstar '星' hmem rfl)
  unfold parse_weekday_time
  rw [reSearch_nextWeekAt_none s hxia]
  unfold parse_weekday_stage2
  rw [reSearch_thisWeekAt_none s hben]
  exact wd_plain_none weekdays now s hwd

theorem rel_days_loop_none (lst : List (Str × Nat)) (now : Int) (s : Str)
    (h : ∀ p ∈ lst, containsSub p.1 s = false) :
    rel_days_loop lst now s = .ok none := by
  induction lst with
  | nil => rfl
  | cons p rest ih =>
    obtain ⟨name, off⟩ := p
    show (if containsSub name s = true then _ else rel_days_loop rest now s)
      = _
    rw [h (name, off) (by simp)]
    simp only [Bool.false_eq_true, if_false]
    exact ih (fun q hq => h q (by simp [hq]))

theorem hourCore_none_noMark (s : Str)
    (h : ∀ c ∈ s, isMark c = false) : hourCore s = none := by
  match s with
  | [] => rfl
  | [c1] => rfl
  | [c1, c2] =>
    have h2 : isMark c2 = false := h c2 (by simp)
    simp [hourCore, h2]
  | c1 :: c2 :: c3 :: rest =>
    have h2 : isMark c2 = false := h c2 (by simp)
    have h3 : isMark c3 = false := h c3 (by simp)
    simp [hourCore, h2, h3]

theorem reSearch_hmAt_none_noMark (s : Str)
    (h : ∀ c ∈ s, isMark c = false) : reSearch hmAt s = none := by
  induction s with
  | nil => rfl
  | cons c rest ih =>
    unfold reSearch
    rw [show hmAt (c :: rest) = none from by
      unfold hmAt
      rw [hourCore_none_noMark _ h]]
    exact ih (fun x hx => h x (by simp [hx]))

theorem parse_specific_time_none (now : Int) (s : Str)
    (h : reSearch hmAt s = none) :
    parse_specific_time now s = .ok none := by
  unfold parse_specific_time
  rw [h]

theorem hourCore_digits_shr (d : Char) (rest : Str) (_hd : isDig d = true)
    (hrest : ∀ c ∈ rest, isDig c = true) :
    hourCore ((d :: rest) ++ ['小','时','后']) = none := by
  cases rest with
  | nil =>
    show hourCore (d :: '小' :: '时' :: ['后']) = none
    simp [hourCore, show isDig '小' = false from by decide,
      show isMark '小' = false from by decide]
  | cons e rest2 =>
    have he : isMark e = false :=
      isMark_eq_false_of_isDig e (hrest e (by simp))
    cases rest2 with
    | nil =>
      show hourCore (d :: e :: '小' :: ['时','后']) = none
      simp [hourCore, he, show isMark '小' = false from by decide]
    | cons f rest3 =>
      have hf : isMark f = false :=
        isMark_eq_false_of_isDig f (hrest f (by simp))
      show hourCore (d :: e :: f :: (rest3 ++ ['小','时','后'])) = none
      simp [hourCore, he, hf]

theorem reSearch_hmAt_hours (ds : Str) (hd : ∀ c ∈ ds, isDig c = true) :
    reSearch hmAt (ds ++ ['小','时','后']) = none := by
  induction ds with
  | nil => decide
  | cons d rest ih =>
    simp only [List.cons_append]
    unfold reSearch
    rw [show hmAt (d :: (rest ++ ['小','时','后'])) = none from by
      unfold hmAt
      rw [show (d :: (rest ++ ['小','时','后']))
            = (d :: rest) ++ ['小','时','后'] from rfl,
        hourCore_digits_shr d rest (hd d (by simp))
          (fun c hc => hd c (by simp [hc]))]]
    simpa using ih (fun c hc => hd c (by simp [hc]))

theorem no_houtian (ds : Str) (hd : ∀ c ∈ ds, isDig c = true) :
    containsSub ['后','天'] (ds ++ ['天','后']) = false := by
  induction ds with
  | nil => decide
  | cons d rest ih =>
    have hne : ¬ ('后' = d) := by
      intro e
      have := hd d (by simp)
      rw [← e] at this
      exact absurd this (by decide)
    show (isPrefixB ['后','天'] (d :: (rest ++ ['天','后']))
        || containsSub ['后','天'] (rest ++ ['天','后'])) = false
    rw [show isPrefixB ['后','天'] (d :: (rest ++ ['天','后'])) = false from by
      simp [isPrefixB, decide_eq_false hne]]
    rw [ih (fun c hc => hd c (by simp [hc]))]
    rfl

theorem char_ne_of_suffix (n : Nat) (suf : Str) (x : Char)
    (hx : isDig x = false) (hxs : x ∉ suf) :
    ∀ c ∈ natRepr n ++ suf, ¬ c = x := by
  intro c hc e
  subst e
  rcases mem_digit_suffix n suf c hc with h | h
  · rw [h] at hx
    cases hx
  · exact hxs h

theorem takeWhile_append_digits (rest : Str) (c : Char) (t : Str)
    (hrest : ∀ x ∈ rest, isDig x = true) (hc : isDig c = false) :
    (rest ++ c :: t).takeWhile isDig = rest := by
  induction rest with
  | nil => simp [List.takeWhile_cons, hc]
  | cons a as ih =>
    simp [List.takeWhile_cons, hrest a (by simp),
      ih (fun x hx => hrest x (by simp [hx]))]

theorem digitRuns_decomp (d : Char) (rest : Str) (c : Char) (t : Str)
    (hd : ∀ x ∈ d :: rest, isDig x = true) (hc : isDig c = false) :
    ∃ r, digitRuns ((d :: rest) ++ c :: t) = (d :: rest) :: r := by
  refine ⟨digitRunsF (rest ++ c :: t).length
    ((rest ++ c :: t).dropWhile isDig), ?_⟩
  show digitRunsF ((rest ++ c :: t).length + 1) (d :: (rest ++ c :: t))
      = (d :: rest) :: _
  simp only [digitRunsF, hd d (by simp), if_true]
  rw [takeWhile_append_digits rest c t (fun x hx => hd x (by simp [hx])) hc]

/-- The relative branch of `_parse_time_manual`, once `后` occurs and a
digit run exists. -/
theorem parse_time_manual_cons (now : Int) (s : Str) (n0 : Str)
    (r : List Str) (hpost : containsSub ['后'] s = true)
    (hdr : digitRuns s = n0 :: r) :
    parse_time_manual now s =
      (if containsSub ['分','钟'] s = true then
        .ok (some (now + (readNat n0 : Int) * minuteU))
      else if containsSub ['小','时'] s = true then
        .ok (some (now + (readNat n0 : Int) * hourU))
      else if containsSub ['天'] s = true then
        .ok (some (now + (readNat n0 : Int) * dayU))
      else if containsSub ['周'] s = true then
        .ok (some (now + (readNat n0 : Int) * weekU))
      else if containsSub ['月'] s = true then
        .ok (some (now + (readNat n0 : Int) * 30 * dayU))
      else .ok (fmtLoop now s manualFmts)) := by
  unfold parse_time_manual
  rw [hpost, hdr]
  rfl

theorem runParsers_cons_none (p : Str → Except Unit (Option Int))
    (ps : List (Str → Except Unit (Option Int))) (now : Int) (s : Str)
    (h : p s = .ok none) :
    runParsers (p :: ps) now s = runParsers ps now s := by
  conv_lhs => unfold runParsers
  rw [h]

theorem runParsers_cons_some (p : Str → Except Unit (Option Int))
    (ps : List (Str → Except Unit (Option Int))) (now : Int) (s : Str)
    (v : Int) (h : p s = .ok (some v)) :
    runParsers (p :: ps) now s
      = if now < v then .ok (some v) else runParsers ps now s := by
  conv_lhs => unfold runParsers
  rw [h]

theorem digitRuns_decomp_repr (n : Nat) (c : Char) (t : Str)
    (hc : isDig c = false) :
    ∃ r, digitRuns (natRepr n ++ c :: t) = natRepr n :: r := by
  rcases hds : natRepr n with _ | ⟨d, rest⟩
  · exact absurd hds (natRepr_ne_nil n)
  · exact digitRuns_decomp d rest c t (hds ▸ natRepr_digits n) hc

theorem manual_rel_minutes (now : Int) (N : Nat) :
    parse_time_manual now (minutesStr N)
      = .ok (some (now + (N : Int) * minuteU)) := by
  obtain ⟨r, hdr⟩ := digitRuns_decomp_repr N '分' ['钟','后'] (by decide)
  rw [show minutesStr N = natRepr N ++ '分' :: ['钟','后'] from rfl,
    parse_time_manual_cons now _ (natRepr N) r
      (containsSub_single '后' _ (List.mem_append.2 (Or.inr (by decide))))
      hdr,
    show containsSub ['分','钟'] (natRepr N ++ '分' :: ['钟','后']) = true from
      containsSub_append_mid (natRepr N) ['分','钟'] ['后'],
    readNat_natRepr]
  rfl

theorem manual_rel_hours (now : Int) (N : Nat) :
    parse_time_manual now (hoursStr N)
      = .ok (some (now + (N : Int) * hourU)) := by
  obtain ⟨r, hdr⟩ := digitRuns_decomp_repr N '小' ['时','后'] (by decide)
  rw [show hoursStr N = natRepr N ++ '小' :: ['时','后'] from rfl,
    parse_time_manual_cons now _ (natRepr N) r
      (containsSub_single '后' _ (List.mem_append.2 (Or.inr (by decide))))
      hdr,
    show containsSub ['分','钟'] (natRepr N ++ '小' :: ['时','后']) = false from
      containsSub_false_of_all _ _ ['小','时','后']
        (mem_digit_suffix N _) (by decide),
    show containsSub ['小','时'] (natRepr N ++ '小' :: ['时','后']) = true from
      containsSub_append_mid (natRepr N) ['小','时'] ['后'],
    readNat_natRepr]
  rfl

theorem manual_rel_days (now : Int) (N : Nat) :
    parse_time_manual now (daysStr N)
      = .ok (some (now + (N : Int) * dayU)) := by
  obtain ⟨r, hdr⟩ := digitRuns_decomp_repr N '天' ['后'] (by decide)
  rw [show daysStr N = natRepr N ++ '天' :: ['后'] from rfl,
    parse_time_manual_cons now _ (natRepr N) r
      (containsSub_single '后' _ (List.mem_append.2 (Or.inr (by decide))))
      hdr,
    show containsSub ['分','钟'] (natRepr N ++ '天' :: ['后']) = false from
      containsSub_false_of_all _ _ ['天','后']
        (mem_digit_suffix N _) (by decide),
    show containsSub ['小','时'] (natRepr N ++ '天' :: ['后']) = false from
      containsSub_false_of_all _ _ ['天','后']
        (mem_digit_suffix N _) (by decide),
    show containsSub ['天'] (natRepr N ++ '天' :: ['后']) = true from
      containsSub_append_mid (natRepr N) ['天'] ['后'],
    readNat_natRepr]
  rfl

theorem manual_rel_weeks (now : Int) (N : Nat) :
    parse_time_manual now (weeksStr N)
      = .ok (some (now + (N : Int) * weekU)) := by
  obtain ⟨r, hdr⟩ := digitRuns_decomp_repr N '周' ['后'] (by decide)
  rw [show weeksStr N = natRepr N ++ '周' :: ['后'] from rfl,
    parse_time_manual_cons now _ (natRepr N) r
      (containsSub_single '后' _ (List.mem_append.2 (Or.inr (by decide))))
      hdr,
    show containsSub ['分','钟'] (natRepr N ++ '周' :: ['后']) = false from
      containsSub_false_of_all _ _ ['周','后']
        (mem_digit_suffix N _) (by decide),
    show containsSub ['小','时'] (natRepr N ++ '周' :: ['后']) = false from
      containsSub_false_of_all _ _ ['周','后']
        (mem_digit_suffix N _) (by decide),
    show containsSub ['天'] (natRepr N ++ '周' :: ['后']) = false from
      containsSub_false_of_all _ _ ['周','后']
        (mem_digit_suffix N _) (by decide),
    show containsSub ['周'] (natRepr N ++ '周' :: ['后']) = true from
      containsSub_append_mid (natRepr N) ['周'] ['后'],
    readNat_natRepr]
  rfl

theorem manual_rel_months (now : Int) (N : Nat) :
    parse_time_manual now (monthsStr N)
      = .ok (some (now + (N : Int) * 30 * dayU)) := by
  obtain ⟨r, hdr⟩ := digitRuns_decomp_repr N '月' ['后'] (by decide)
  rw [show monthsStr N = natRepr N ++ '月' :: ['后'] from rfl,
    parse_time_manual_cons now _ (natRepr N) r
      (containsSub_single '后' _ (List.mem_append.2 (Or.inr (by decide))))
      hdr,
    show containsSub ['分','钟'] (natRepr N ++ '月' :: ['后']) = false from
      containsSub_false_of_all _ _ ['月','后']
        (mem_digit_suffix N _) (by decide),
    show containsSub ['小','时'] (natRepr N ++ '月' :: ['后']) = false from
      containsSub_false_of_all _ _ ['月','后']
        (mem_digit_suffix N _) (by decide),
    show containsSub ['天'] (natRepr N ++ '月' :: ['后']) = false from
      containsSub_false_of_all _ _ ['月','后']
        (mem_digit_suffix N _) (by decide),
    show containsSub ['周'] (natRepr N ++ '月' :: ['后']) = false from
      containsSub_false_of_all _ _ ['月','后']
        (mem_digit_suffix N _) (by decide),
    show containsSub ['月'] (natRepr N ++ '月' :: ['后']) = true from
      containsSub_append_mid (natRepr N) ['月'] ['后'],
    readNat_natRepr]
  rfl

/-- Assembling `parse_time` from the behaviour of its five sub-parsers:
identity preprocessing, three clean rejections, a benign external
`dateparser` and a strictly future manual result give exactly that
result. -/
theorem parse_time_of_components (dp : Str → Except Unit (Option Int))
    (now : Int) (s : Str) (target : Int)
    (hpre : preprocess s = s)
    (h1 : parse_weekday_time now s = .ok none)
    (h2 : parse_relative_days now s = .ok none)
    (h3 : parse_specific_time now s = .ok none)
    (h5 : parse_time_manual now s = .ok (some target))
    (hdp : dpBenign dp now s target)
    (hpos : now < target) :
    parse_time dp now s = some target := by
  have hrun : runParsers (subParsers dp now) now s = .ok (some target) := by
    show runParsers (parse_weekday_time now :: parse_relative_days now ::
      parse_specific_time now :: dp :: parse_time_manual now :: []) now s
      = .ok (some target)
    rw [runParsers_cons_none _ _ _ _ h1, runParsers_cons_none _ _ _ _ h2,
      runParsers_cons_none _ _ _ _ h3]
    rcases hdp with hdp | hdp | ⟨v, hdp, hv⟩
    · rw [runParsers_cons_none _ _ _ _ hdp,
        runParsers_cons_some _ _ _ _ _ h5, if_pos hpos]
    · rw [runParsers_cons_some _ _ _ _ _ hdp, if_pos hpos]
    · rw [runParsers_cons_some _ _ _ _ _ hdp, if_neg (by omega),
        runParsers_cons_some _ _ _ _ _ h5, if_pos hpos]
  unfold parse_time
  rw [hpre, hrun]

theorem c5_minutes_total (dp : Str → Except Unit (Option Int)) (now : Int)
    (N : Nat) (hN : 1 ≤ N)
    (hdp : dpBenign dp now (minutesStr N) (now + (N : Int) * minuteU)) :
    parse_time dp now (minutesStr N) = some (now + (N : Int) * minuteU) := by
  have hN' : (0:Int) < (N : Int) := by exact_mod_cast hN
  refine parse_time_of_components dp now _ _
    (preprocess_id_of N ['分','钟','后'] (by decide) (by decide) (by decide)
      (by decide))
    (parse_weekday_time_none now _
      (char_ne_of_suffix N ['分','钟','后'] '下' (by decide) (by decide))
      (fun c hc =>
        ⟨char_ne_of_suffix N ['分','钟','后'] '本' (by decide) (by decide) c hc,
         char_ne_of_suffix N ['分','钟','后'] '这' (by decide) (by decide) c hc⟩)
      (char_ne_of_suffix N ['分','钟','后'] '星' (by decide) (by decide)))
    ?_ ?_ (manual_rel_minutes now N) hdp ?_
  · show parse_relative_days now (minutesStr N) = .ok none
    unfold parse_relative_days
    refine rel_days_loop_none relDays now _ (fun p hp => ?_)
    exact containsSub_false_of_all p.1 _ ['分','钟','后']
      (mem_digit_suffix N _) (by fin_cases hp <;> decide)
  · show parse_specific_time now (minutesStr N) = .ok none
    refine parse_specific_time_none now _ (reSearch_hmAt_none_noMark _ ?_)
    intro c hc
    rcases mem_digit_suffix N ['分','钟','后'] c hc with h | h
    · exact isMark_eq_false_of_isDig c h
    · simp only [List.mem_cons, List.not_mem_nil, or_false] at h
      rcases h with rfl | rfl | rfl <;> decide
  · have hmu : (0:Int) < (N : Int) * minuteU := mul_pos hN' (by decide)
    omega

theorem c5_hours_total (dp : Str → Except Unit (Option Int)) (now : Int)
    (N : Nat) (hN : 1 ≤ N)
    (hdp : dpBenign dp now (hoursStr N) (now + (N : Int) * hourU)) :
    parse_time dp now (hoursStr N) = some (now + (N : Int) * hourU) := by
  have hN' : (0:Int) < (N : Int) := by exact_mod_cast hN
  refine parse_time_of_components dp now _ _
    (preprocess_id_of N ['小','时','后'] (by decide) (by decide) (by decide)
      (by decide))
    (parse_weekday_time_none now _
      (char_ne_of_suffix N ['小','时','后'] '下' (by decide) (by decide))
      (fun c hc =>
        ⟨char_ne_of_suffix N ['小','时','后'] '本' (by decide) (by decide) c hc,
         char_ne_of_suffix N ['小','时','后'] '这' (by decide) (by decide) c hc⟩)
      (char_ne_of_suffix N ['小','时','后'] '星' (by decide) (by decide)))
    ?_ ?_ (manual_rel_hours now N) hdp ?_
  · show parse_relative_days now (hoursStr N) = .ok none
    unfold parse_relative_days
    refine rel_days_loop_none relDays now _ (fun p hp => ?_)
    exact containsSub_false_of_all p.1 _ ['小','时','后']
      (mem_digit_suffix N _) (by fin_cases hp <;> decide)
  · show parse_specific_time now (hoursStr N) = .ok none
    exact parse_specific_time_none now _
      (reSearch_hmAt_hours (natRepr N) (natRepr_digits N))
  · have hmu : (0:Int) < (N : Int) * hourU := mul_pos hN' (by decide)
    omega

theorem c5_days_total (dp : Str → Except Unit (Option Int)) (now : Int)
    (N : Nat) (hN : 1 ≤ N)
    (hdp : dpBenign dp now (daysStr N) (now + (N : Int) * dayU)) :
    parse_time dp now (daysStr N) = some (now + (N : Int) * dayU) := by
  have hN' : (0:Int) < (N : Int) := by exact_mod_cast hN
  refine parse_time_of_components dp now _ _
    (preprocess_id_of N ['天','后'] (by decide) (by decide) (by decide)
      (by decide))
    (parse_weekday_time_none now _
      (char_ne_of_suffix N ['天','后'] '下' (by decide) (by decide))
      (fun c hc =>
        ⟨char_ne_of_suffix N ['天','后'] '本' (by decide) (by decide) c hc,
         char_ne_of_suffix N ['天','后'] '这' (by decide) (by decide) c hc⟩)
      (char_ne_of_suffix N ['天','后'] '星' (by decide) (by decide)))
    ?_ ?_ (manual_rel_days now N) hdp ?_
  · show parse_relative_days now (daysStr N) = .ok none
    unfold parse_relative_days
    refine rel_days_loop_none relDays now _ (fun p hp => ?_)
    fin_cases hp
    · exact containsSub_false_of_all _ _ ['天','后']
        (mem_digit_suffix N _) (by decide)
    · exact containsSub_false_of_all _ _ ['天','后']
        (mem_digit_suffix N _) (by decide)
    · exact no_houtian (natRepr N) (natRepr_digits N)
    · exact containsSub_false_of_all _ _ ['天','后']
        (mem_digit_suffix N _) (by decide)
    · exact containsSub_false_of_all _ _ ['天','后']
        (mem_digit_suffix N _) (by decide)
    · exact containsSub_false_of_all _ _ ['天','后']
        (mem_digit_suffix N _) (by decide)
  · show parse_specific_time now (daysStr N) = .ok none
    refine parse_specific_time_none now _ (reSearch_hmAt_none_noMark _ ?_)
    intro c hc
    rcases mem_digit_suffix N ['天','后'] c hc with h | h
    · exact isMark_eq_false_of_isDig c h
    · simp only [List.mem_cons, List.not_mem_nil, or_false] at h
      rcases h with rfl | rfl <;> decide
  · have hmu : (0:Int) < (N : Int) * dayU := mul_pos hN' (by decide)
    omega

theorem c5_weeks_total (dp : Str → Except Unit (Option Int)) (now : Int)
    (N : Nat) (hN : 1 ≤ N)
    (hdp : dpBenign dp now (weeksStr N) (now + (N : Int) * weekU)) :
    parse_time dp now (weeksStr N) = some (now + (N : Int) * weekU) := by
  have hN' : (0:Int) < (N : Int) := by exact_mod_cast hN
  refine parse_time_of_components dp now _ _
    (preprocess_id_of N ['周','后'] (by decide) (by decide) (by decide)
      (by decide))
    (parse_weekday_time_none now _
      (char_ne_of_suffix N ['周','后'] '下' (by decide) (by decide))
      (fun c hc =>
        ⟨char_ne_of_suffix N ['周','后'] '本' (by decide) (by decide) c hc,
         char_ne_of_suffix N ['周','后'] '这' (by decide) (by decide) c hc⟩)
      (char_ne_of_suffix N ['周','后'] '星' (by decide) (by decide)))
    ?_ ?_ (manual_rel_weeks now N) hdp ?_
  · show parse_relative_days now (weeksStr N) = .ok none
    unfold parse_relative_days
    refine rel_days_loop_none relDays now _ (fun p hp => ?_)
    exact containsSub_false_of_all p.1 _ ['周','后']
      (mem_digit_suffix N _) (by fin_cases hp <;> decide)
  · show parse_specific_time now (weeksStr N) = .ok none
    refine parse_specific_time_none now _ (reSearch_hmAt_none_noMark _ ?_)
    intro c hc
    rcases mem_digit_suffix N ['周','后'] c hc with h | h
    · exact isMark_eq_false_of_isDig c h
    · simp only [List.mem_cons, List.not_mem_nil, or_false] at h
      rcases h with rfl | rfl <;> decide
  · have hmu : (0:Int) < (N : Int) * weekU := mul_pos hN' (by decide)
    omega

theorem c5_months_total (dp : Str → Except Unit (Option Int)) (now : Int)
    (N : Nat) (hN : 1 ≤ N)
    (hdp : dpBenign dp now (monthsStr N) (now + (N : Int) * 30 * dayU)) :
    parse_time dp now (monthsStr N)
      = some (now + (N : Int) * 30 * dayU) := by
  have hN' : (0:Int) < (N : Int) := by exact_mod_cast hN
  refine parse_time_of_components dp now _ _
    (preprocess_id_of N ['月','后'] (by decide) (by decide) (by decide)
      (by decide))
    (parse_weekday_time_none now _
      (char_ne_of_suffix N ['月','后'] '下' (by decide) (by decide))
      (fun c hc =>
        ⟨char_ne_of_suffix N ['月','后'] '本' (by decide) (by decide) c hc,
         char_ne_of_suffix N ['月','后'] '这' (by decide) (by decide) c hc⟩)
      (char_ne_of_suffix N ['月','后'] '星' (by decide) (by decide)))
    ?_ ?_ (manual_rel_months now N) hdp ?_
  · show parse_relative_days now (monthsStr N) = .ok none
    unfold parse_relative_days
    refine rel_days_loop_none relDays now _ (fun p hp => ?_)
    exact containsSub_false_of_all p.1 _ ['月','后']
      (mem_digit_suffix N _) (by fin_cases hp <;> decide)
  · show parse_specific_time now (monthsStr N) = .ok none
    refine parse_specific_time_none now _ (reSearch_hmAt_none_noMark _ ?_)
    intro c hc
    rcases mem_digit_suffix N ['月','后'] c hc with h | h
    · exact isMark_eq_false_of_isDig c h
    · simp only [List.mem_cons, List.not_mem_nil, or_false] at h
      rcases h with rfl | rfl <;> decide
  · have hmu : (0:Int) < (N : Int) * 30 * dayU :=
      mul_pos (mul_pos hN' (by decide)) (by decide)
    omega

/-- **C5 counterexample.** The claim quantifies over every *nonnegative*
N, but at N = 0 the relative expression `0分钟后` is parsed to
`now + 0`, which fails the strictly-future acceptance check
`parsed_time > now` of `parse_time`; both passes reject it and
`parse_time` returns `None` instead of `T + 0·unit`. -/
theorem c5_counterexample :
    parse_time dpNone 0 (minutesStr 0) = none := by
  decide

/-- **C5 amended.** For every N ≥ 1 and reference instant `now`, and any
behaviour of the external `dateparser` sub-parser that does not
intercept the string with a *different* future instant (it may fail,
return the same instant, or return a non-future instant), `parse_time`
on `N分钟后` / `N小时后` / `N天后` / `N周后` / `N月后` returns exactly
`now + N·unit` (months as 30 days): preprocessing leaves the string
unchanged, the weekday, relative-day and specific-time sub-parsers all
cleanly return no match, and the manual relative parser produces the
exact offset, which passes the strictly-future check. -/
theorem c5_amended (dp : Str → Except Unit (Option Int)) (now : Int)
    (N : Nat) (hN : 1 ≤ N) :
    (dpBenign dp now (minutesStr N) (now + (N : Int) * minuteU) →
      parse_time dp now (minutesStr N) = some (now + (N : Int) * minuteU)) ∧
    (dpBenign dp now (hoursStr N) (now + (N : Int) * hourU) →
      parse_time dp now (hoursStr N) = some (now + (N : Int) * hourU)) ∧
    (dpBenign dp now (daysStr N) (now + (N : Int) * dayU) →
      parse_time dp now (daysStr N) = some (now + (N : Int) * dayU)) ∧
    (dpBenign dp now (weeksStr N) (now + (N : Int) * weekU) →
      parse_time dp now (weeksStr N) = some (now + (N : Int) * weekU)) ∧
    (dpBenign dp now (monthsStr N) (now + (N : Int) * 30 * dayU) →
      parse_time dp now (monthsStr N) = some (now + (N : Int) * 30 * dayU)) :=
  ⟨c5_minutes_total dp now N hN, c5_hours_total dp now N hN,
   c5_days_total dp now N hN, c5_weeks_total dp now N hN,
   c5_months_total dp now N hN⟩

/-- Witness for C5 (amended): with a failing `dateparser`, `5分钟后` at
`now = 0` parses to exactly 5 minutes in microseconds. -/
theorem c5_witness :
    1 ≤ 5 ∧ parse_time dpNone 0 (minutesStr 5)
      = some (0 + (5 : Int) * minuteU) :=
  ⟨by decide, (c5_amended dpNone 0 5 (by decide)).1 (Or.inl rfl)⟩
